import Mathlib

/-!
# rcli: usage-string parsing and argument binding

A shallow embedding of `rcli.go` (package `rcli`) and the properties of its
registration (`App.Command`) and dispatch (`App.Run`) paths.

Modelling conventions

* Go strings are lists of characters (`Str`).  Every character test made by
  the program (`\w`, `.`, `<`, `:`, `=`, `>`, the space, the sign and the
  digits) is a test on an ASCII code point, so the byte-level and the
  character-level readings of the program agree.
* A checker returns `(value, err)` in Go; here it returns `Option Value`,
  `none` standing for `err != nil` (the value returned next to an error is
  never read by the program).
* An `interface{}` that may be `nil` (`arg.defaultValue`) is an `Option Value`.
* `panic` and `os.Exit` end the function: `Command` returns the registry after
  the call together with the panic, if any; `Run` returns what it wrote to
  standard error, the handler calls it made and how it ended.
* A handler that is a function carries its parameter list (`Signature`), which
  decides whether `reflect.Value.Call` runs the handler or panics; what the
  handler does once it runs is not modelled.
* `strconv.ParseFloat` yields an IEEE-754 binary64; it is a parameter
  (`ParseFloat`) of the development, its result being the 64-bit encoding of
  the float.  `strconv.ParseBool` and `strconv.Atoi` are embedded in full,
  `Atoi` for a 64-bit `int`.
-/

namespace Rcli

/-- A Go string. -/
abbrev Str := List Char

/-- A dynamically typed, non-nil `interface{}` produced by a checker: a
`string`, a `bool`, an `int`, or a `float64` (given by its binary64 encoding). -/
inductive Value where
  | str (s : Str)
  | bool (b : Bool)
  | int (n : Int)
  | float (bits : Nat)
  deriving DecidableEq, Repr

/-- The Go type `typeChecker`: `func(value string) (result interface{}, err error)`. -/
abbrev typeChecker := Str → Option Value

/-- The type of a handler parameter, as far as the values of this program can
tell types apart: the four types of the checkers' results, an interface type
without methods (`interface{}`, `any`), or any other type, given by its
name. -/
inductive GoType where
  | string
  | bool
  | int
  | float64
  | emptyInterface
  | other (typeName : Str)
  deriving DecidableEq, Repr

/-- The test `xt.AssignableTo(targ)` of `reflect.Value.Call` for the dynamic
type of a value: a `string`, `bool`, `int` or `float64` is assignable to its
own type and to an interface type without methods, and to no other type
(these four types are defined types and have no methods). -/
def Value.assignableTo (v : Value) (t : GoType) : Bool :=
  match v, t with
  | _, GoType.emptyInterface => true
  | Value.str _, GoType.string => true
  | Value.bool _, GoType.bool => true
  | Value.int _, GoType.int => true
  | Value.float _, GoType.float64 => true
  | _, _ => false

/-- The parameter list of a function value: the types of the parameters, and
for a variadic function (`...T` last) the element type `T`, the list `params`
then holding the parameters before it. -/
structure Signature where
  params : List GoType
  variadic : Option GoType
  deriving DecidableEq, Repr

/-- The checks `reflect.Value.Call(in)` makes before it runs the function:
`len(in)` is not below the number of (non-variadic) parameters, and not above
it unless the function is variadic; every `in[i]` is assignable to the type of
parameter `i`; every further value is assignable to the element type of the
variadic parameter.  When one of them fails, `Call` panics and the function
does not run. -/
def Signature.fits (sig : Signature) (values : List Value) : Bool :=
  match sig.variadic with
  | none =>
    values.length == sig.params.length &&
      (values.zip sig.params).all (fun p => p.1.assignableTo p.2)
  | some elem =>
    decide (sig.params.length ≤ values.length) &&
      (values.zip sig.params).all (fun p => p.1.assignableTo p.2) &&
      (values.drop sig.params.length).all (fun v => v.assignableTo elem)

/-! ## strconv -/

/-- The function `strconv.ParseBool`: a switch over twelve literal spellings. -/
def ParseBool (str : Str) : Option Bool :=
  if str = "1".toList ∨ str = "t".toList ∨ str = "T".toList ∨
     str = "true".toList ∨ str = "TRUE".toList ∨ str = "True".toList then some true
  else if str = "0".toList ∨ str = "f".toList ∨ str = "F".toList ∨
     str = "false".toList ∨ str = "FALSE".toList ∨ str = "False".toList then some false
  else none

/-- The width of the Go type `int` on the modelled (64-bit) target. -/
def intSize : Nat := 64

/-- The digit loop of `strconv.Atoi`: `ch -= '0'; if ch > 9 (syntax error); n = n*10 + ch`. -/
def atoiDigits : Str → Nat → Option Nat
  | [], n => some n
  | ch :: rest, n =>
    if 48 ≤ ch.toNat ∧ ch.toNat ≤ 57 then atoiDigits rest (n * 10 + (ch.toNat - 48)) else none

/-- The function `strconv.Atoi`: one optional sign, then at least one decimal
digit; a value outside the range of `int` is a range error. -/
def Atoi (s : Str) : Option Int :=
  let neg : Bool := s.head? = some '-'
  let digits : Str :=
    match s with
    | '-' :: rest => rest
    | '+' :: rest => rest
    | _ => s
  if digits = [] then none
  else
    match atoiDigits digits 0 with
    | none => none
    | some un =>
      if neg then (if un > 2 ^ (intSize - 1) then none else some (-(un : Int)))
      else (if un ≥ 2 ^ (intSize - 1) then none else some (un : Int))

/-! ## Checkers -/

def stringChecker (value : Str) : Option Value :=
  some (Value.str value)

def boolChecker (value : Str) : Option Value :=
  (ParseBool value).map Value.bool

def intChecker (value : Str) : Option Value :=
  (Atoi value).map Value.int

/-- The checker `floatChecker`: `strconv.ParseFloat(value, 0)`, the library function being the
parameter `ParseFloat`. -/
def floatChecker (ParseFloat : Str → Option Nat) (value : Str) : Option Value :=
  (ParseFloat value).map Value.float

/-- The map `typeCheckers`; `none` is the `!ok` of a failed lookup. -/
def typeCheckers (ParseFloat : Str → Option Nat) (key : Str) : Option typeChecker :=
  if key = "bool".toList then some boolChecker
  else if key = "int".toList then some intChecker
  else if key = "float".toList then some (floatChecker ParseFloat)
  else none

/-! ## The regular expression `<(\w+)(:(\w+))?(=([\w.]+))?>` -/

/-- The class `\w` of Go's `regexp`: `[0-9A-Za-z_]`. -/
def isWordChar (c : Char) : Bool :=
  (48 ≤ c.toNat && c.toNat ≤ 57) || (65 ≤ c.toNat && c.toNat ≤ 90) ||
    c.toNat == 95 || (97 ≤ c.toNat && c.toNat ≤ 122)

/-- The class `[\w.]`. -/
def isWordOrDot (c : Char) : Bool :=
  isWordChar c || c == '.'

/-- One element of the result of `FindAllStringSubmatch`: the text of the whole
match (`g0`) and of the five groups; a group that did not take part is `""`. -/
structure Submatch where
  g0 : Str
  g1 : Str
  g2 : Str
  g3 : Str
  g4 : Str
  g5 : Str
  deriving DecidableEq, Repr

/-- The optional group `(:(\w+))?` tried at `s`: the texts of groups 2 and 3 and
the input left.  The group is taken whenever it can be (`?` is greedy); when
it cannot, it matches nothing and consumes nothing. -/
def matchTypeGroup (s : Str) : Str × Str × Str :=
  match s with
  | ':' :: t =>
    if t.takeWhile isWordChar = [] then ([], [], s)
    else (':' :: t.takeWhile isWordChar, t.takeWhile isWordChar, t.dropWhile isWordChar)
  | _ => ([], [], s)

/-- The optional group `(=([\w.]+))?` tried at `s`: groups 4 and 5 and the
input left. -/
def matchDefaultGroup (s : Str) : Str × Str × Str :=
  match s with
  | '=' :: t =>
    if t.takeWhile isWordOrDot = [] then ([], [], s)
    else ('=' :: t.takeWhile isWordOrDot, t.takeWhile isWordOrDot, t.dropWhile isWordOrDot)
  | _ => ([], [], s)

/-- The regular expression `argRegexp` matched at the very start of `s`: the
submatches and the input after the match.

Each repetition is followed in the pattern only by characters outside its own
class (`:`, `=` and `>` are neither in `\w` nor in `[\w.]`), so a match, if
there is one, takes every repetition at its maximal length and every optional
group that is present: the leftmost-first match is the only match. -/
def argRegexpMatchAt (s : Str) : Option (Submatch × Str) :=
  match s with
  | '<' :: r =>
    if r.takeWhile isWordChar = [] then none
    else
      match (matchDefaultGroup (matchTypeGroup (r.dropWhile isWordChar)).2.2).2.2 with
      | '>' :: rest =>
        some ({ g0 := '<' :: r.takeWhile isWordChar
                        ++ (matchTypeGroup (r.dropWhile isWordChar)).1
                        ++ (matchDefaultGroup (matchTypeGroup (r.dropWhile isWordChar)).2.2).1
                        ++ ['>'],
                g1 := r.takeWhile isWordChar,
                g2 := (matchTypeGroup (r.dropWhile isWordChar)).1,
                g3 := (matchTypeGroup (r.dropWhile isWordChar)).2.1,
                g4 := (matchDefaultGroup (matchTypeGroup (r.dropWhile isWordChar)).2.2).1,
                g5 := (matchDefaultGroup (matchTypeGroup (r.dropWhile isWordChar)).2.2).2.1 },
              rest)
      | _ => none
  | _ => none

/-- The scan of `FindAllStringSubmatch`: at each position try a match; after a
match go on behind it, otherwise move one character on.  `fuel` bounds the
number of steps. -/
def findAllFrom : Nat → Str → List Submatch
  | 0, _ => []
  | _ + 1, [] => []
  | fuel + 1, c :: cs =>
    match argRegexpMatchAt (c :: cs) with
    | some (m, rest) => m :: findAllFrom fuel rest
    | none => findAllFrom fuel cs

/-- The call `argRegexp.FindAllStringSubmatch(usage, -1)`: all successive
non-overlapping matches, left to right. -/
def argRegexpFindAll (usage : Str) : List Submatch :=
  findAllFrom (usage.length + 1) usage

/-! ## strings and filepath -/

/-- The call `strings.Split(s, " ")`: the pieces of `s` between the spaces. -/
def stringsSplit : Str → List Str
  | [] => [[]]
  | c :: cs =>
    if c = ' ' then [] :: stringsSplit cs
    else
      match stringsSplit cs with
      | [] => [[c]]
      | piece :: pieces => (c :: piece) :: pieces

/-- The call `strings.HasPrefix(s, "<")`. -/
def hasPrefixLt (s : Str) : Bool :=
  "<".toList.isPrefixOf s

/-- The function `filepath.Base` on a target whose only separator is `/`. -/
def filepathBase (path : Str) : Str :=
  if path = [] then ".".toList
  else
    let stripped := (path.reverse.dropWhile (fun c => c == '/')).reverse
    let last := (stripped.reverse.takeWhile (fun c => c != '/')).reverse
    if last = [] then "/".toList else last

/-! ## Data model -/

structure arg where
  name : Str
  checker : typeChecker
  defaultValue : Option Value

def arg.isOptional (a : arg) : Bool :=
  a.defaultValue != none

/-- A handler as `Command` receives it (an `interface{}`): the untyped `nil`,
a function value (which function, and its parameter list), or a value of any
other kind, named by its `%T` type. -/
inductive Handler where
  | nil
  | func (id : Nat) (sig : Signature)
  | other (typeName : Str)
  deriving DecidableEq, Repr

structure command where
  name : Str
  usage : Str
  args : List arg
  handler : Handler

structure App where
  commands : List command

/-- A panic of the program or of the Go runtime. -/
inductive Panic where
  /-- The call `panic(msg)` with an explicit message. -/
  | message (msg : Str)
  /-- An index out of range: index and length. -/
  | indexOutOfRange (index len : Nat)
  /-- Slice bounds out of range in `s[low:]`: the bound `low` and the length. -/
  | sliceBoundsOutOfRange (low len : Nat)
  /-- A method call through a nil interface (`reflect.TypeOf(nil).Kind()`). -/
  | nilDereference
  /-- The call `reflect.Value.Call` on a value that is not a function. -/
  | callOfNonFunction
  /-- The call `reflect.Value.Call` with values that do not fit the parameters
  of the function: too few, too many, or one not assignable to its
  parameter's type. -/
  | callMismatch
  deriving DecidableEq, Repr

/-! ## Registration -/

/-- Lines 55-61 of `newArgFromRegexpMatch`: the checker the map `typeCheckers`
holds for the tag, and `stringChecker` when the lookup fails. -/
def selectChecker (ParseFloat : Str → Option Nat) (rawType : Str) : typeChecker :=
  match typeCheckers ParseFloat rawType with
  | some checker => checker
  | none => stringChecker

def newArgFromRegexpMatch (ParseFloat : Str → Option Nat) (m : Submatch) : Except Panic arg :=
  let name := m.g1
  let rawType := m.g3
  let rawDefaultValue := m.g5
  let checker := selectChecker ParseFloat rawType
  if rawDefaultValue ≠ [] then
    match checker rawDefaultValue with
    | none =>
      Except.error (Panic.message
        ("invalid default value for type ".toList ++ rawType ++ ": ".toList ++ rawDefaultValue))
    | some defaultValue =>
      Except.ok { name := name, checker := checker, defaultValue := some defaultValue }
  else
    Except.ok { name := name, checker := checker, defaultValue := none }

def command.minArgCount (c : command) : Nat :=
  c.args.foldl (fun minArgCount a => if !a.isOptional then minArgCount + 1 else minArgCount) 0

/-- The text `command.printUsage` writes to standard error. -/
def command.printUsage (c : command) (program : Str) : Str :=
  "usage: ".toList ++ program ++ " ".toList ++ c.usage ++ "\n".toList

def NewApp : App :=
  { commands := [] }

/-- The loop of `Command` over the matches (lines 118-126), `hasOptional`
being the loop's flag on entry: the descriptors built, or the first panic. -/
def commandArgs (ParseFloat : Str → Option Nat) :
    List Submatch → Bool → Except Panic (List arg)
  | [], _ => Except.ok []
  | argMatch :: rest, hasOptional =>
    match newArgFromRegexpMatch ParseFloat argMatch with
    | Except.error p => Except.error p
    | Except.ok a =>
      if hasOptional && !a.isOptional then
        Except.error (Panic.message "optional args must come after non-optional args".toList)
      else
        match commandArgs ParseFloat rest (if a.isOptional then true else hasOptional) with
        | Except.error p => Except.error p
        | Except.ok args => Except.ok (a :: args)

/-- What a call of `Command` leaves behind: the registry after the call and
the panic that ended the call, if one did. -/
structure CommandResult where
  app : App
  panicked : Option Panic

def Command (ParseFloat : Str → Option Nat) (a : App) (usage : Str) (handler : Handler) :
    CommandResult :=
  match handler with
  | Handler.nil => { app := a, panicked := some Panic.nilDereference }
  | Handler.other typeName =>
    { app := a,
      panicked := some (Panic.message ("handler must be a func, not ".toList ++ typeName)) }
  | Handler.func _ _ =>
    match commandArgs ParseFloat (argRegexpFindAll usage) false with
    | Except.error p => { app := a, panicked := some p }
    | Except.ok args =>
      let name := (stringsSplit usage).headD []
      if hasPrefixLt name then
        { app := a,
          panicked := some (Panic.message "first part of usage must be command name".toList) }
      else
        { app := { commands := a.commands ++
                    [{ name := name, usage := usage, args := args, handler := handler }] },
          panicked := none }

/-! ## Dispatch -/

/-- The text `App.printUsage` writes to standard error. -/
def App.printUsage (a : App) (program : Str) : Str :=
  let newline : Str := if a.commands.length > 1 then "\n".toList else []
  a.commands.foldl
    (fun out cmd => out ++ (" ".toList ++ program ++ " ".toList ++ cmd.usage ++ "\n".toList))
    ("usage:".toList ++ newline)

/-- The lookup loop of `Run` (lines 162-167): every command whose name equals
`name` overwrites `targetCmd`; `none` is the nil pointer. -/
def findTarget (commands : List command) (name : Str) : Option command :=
  commands.foldl (fun targetCmd cmd => if cmd.name = name then some cmd else targetCmd) none

/-- Why the binding loop of `Run` stopped early. -/
inductive BindStop where
  /-- A checker returned an error. -/
  | conversion
  /-- The access `args[i+1]` was out of range. -/
  | index (index len : Nat)
  deriving DecidableEq, Repr

/-- The conversion `arg.checker(args[i+1])` of line 187; `args` are the
trailing arguments, command name included. -/
def bindToken (args : List Str) (i : Nat) (a : arg) : Except BindStop Value :=
  match args[i + 1]? with
  | none => Except.error (BindStop.index (i + 1) args.length)
  | some token =>
    match a.checker token with
    | none => Except.error BindStop.conversion
    | some value => Except.ok value

/-- One iteration of the binding loop (lines 186-190) for the argument at
index `i`.  The test `!arg.isOptional() || len(args)-2 >= i` is a case split
on `arg.defaultValue`, `isOptional` being `defaultValue != nil`: without a
default the token is converted; with one it is converted when
`len(args)-2 >= i` and the default is taken otherwise. -/
def bindValue (args : List Str) (i : Nat) (a : arg) : Except BindStop Value :=
  match a.defaultValue with
  | none => bindToken args i a
  | some defaultValue =>
    if (args.length : Int) - 2 ≥ (i : Int) then bindToken args i a
    else Except.ok defaultValue

/-- The binding loop of `Run` (lines 180-198) from index `i` on. -/
def bindValues (args : List Str) : Nat → List arg → Except BindStop (List Value)
  | _, [] => Except.ok []
  | i, a :: rest =>
    match bindValue args i a with
    | Except.error e => Except.error e
    | Except.ok value =>
      match bindValues args (i + 1) rest with
      | Except.error e => Except.error e
      | Except.ok values => Except.ok (value :: values)

/-- How a call of `Run` ended. -/
inductive Status where
  /-- The handler was invoked and `Run` reached its end. -/
  | returned
  /-- The call `os.Exit(code)`. -/
  | exited (code : Nat)
  | panicked (p : Panic)
  deriving DecidableEq, Repr

/-- The observable behaviour of a call of `Run`. -/
structure RunResult where
  /-- The text written to standard error. -/
  stderr : Str
  /-- The handler invocations, in order, each with its list of values: the
  calls `handler.Call(values)` that passed the checks of `reflect` and ran the
  handler.  What the handler then does lies outside the model. -/
  calls : List (Handler × List Value)
  status : Status
  deriving DecidableEq, Repr

/-- Lines 173-200 of `Run`, for the command the lookup selected: the count
check, the binding loop and the call `targetCmd.handler.Call(values)`.  The
call panics, before the handler runs, when the values do not fit the
handler's parameters; `Command` stores function values only, and `Call` on
any other handler panics too. -/
def runTarget (targetCmd : command) (program : Str) (args : List Str) : RunResult :=
  if (args.length : Int) - 1 < (targetCmd.minArgCount : Int) then
    { stderr := targetCmd.printUsage program, calls := [], status := Status.exited 1 }
  else
    match bindValues args 0 targetCmd.args with
    | Except.error BindStop.conversion =>
      { stderr := targetCmd.printUsage program, calls := [], status := Status.exited 1 }
    | Except.error (BindStop.index i len) =>
      { stderr := [], calls := [], status := Status.panicked (Panic.indexOutOfRange i len) }
    | Except.ok values =>
      match targetCmd.handler with
      | Handler.func _ sig =>
        if sig.fits values then
          { stderr := [], calls := [(targetCmd.handler, values)], status := Status.returned }
        else { stderr := [], calls := [], status := Status.panicked Panic.callMismatch }
      | _ => { stderr := [], calls := [], status := Status.panicked Panic.callOfNonFunction }

/-- The method `App.Run`.  On an empty `argv` the first statement,
`program, args := args[0], args[1:]`, panics on the slice expression, checked
first. -/
def Run (a : App) (argv : List Str) : RunResult :=
  match argv with
  | [] =>
    { stderr := [], calls := [], status := Status.panicked (Panic.sliceBoundsOutOfRange 1 0) }
  | program :: args =>
    match args with
    | [] => { stderr := a.printUsage (filepathBase program), calls := [], status := Status.exited 1 }
    | name :: _ =>
      match findTarget a.commands name with
      | none =>
        { stderr := a.printUsage (filepathBase program), calls := [], status := Status.exited 1 }
      | some targetCmd => runTarget targetCmd (filepathBase program) args

/-- The registries a program can build: `NewApp`, then any number of calls of
`Command` (a call that panics leaves the registry as it was). -/
inductive Reachable (ParseFloat : Str → Option Nat) : App → Prop where
  | newApp : Reachable ParseFloat NewApp
  | command (a : App) (usage : Str) (handler : Handler) :
      Reachable ParseFloat a → Reachable ParseFloat (Command ParseFloat a usage handler).app

/-- One call on a registry: `a.Command(usage, handler)` or `a.Run(argv)`. -/
inductive Call where
  | command (usage : Str) (handler : Handler)
  | run (argv : List Str)

/-- The registry after a call.  `Command` leaves the registry it returns;
`Run`, `printUsage` and `minArgCount` hold no assignment to `a.commands` nor to
a field of a command, so the registry after `Run` is the registry before. -/
def applyCall (ParseFloat : Str → Option Nat) (a : App) : Call → App
  | Call.command usage handler => (Command ParseFloat a usage handler).app
  | Call.run _ => a

/-- The registry after a sequence of calls, a panic of `Command` being
recovered by the caller. -/
def applyCalls (ParseFloat : Str → Option Nat) (a : App) (calls : List Call) : App :=
  calls.foldl (applyCall ParseFloat) a

/-! ## Specification predicates -/

/-- The shape of a match of `<(\w+)(:(\w+))?(=([\w.]+))?>`: a non-empty name of
word characters; a type group that is absent, or `:` and a non-empty tag of
word characters; a default group that is absent, or `=` and a non-empty
literal of word characters and dots; and the whole text assembled from them. -/
def Submatch.WellFormed (m : Submatch) : Prop :=
  (m.g1 ≠ [] ∧ ∀ c ∈ m.g1, isWordChar c = true) ∧
  ((m.g2 = [] ∧ m.g3 = []) ∨ (m.g3 ≠ [] ∧ (∀ c ∈ m.g3, isWordChar c = true) ∧ m.g2 = ':' :: m.g3)) ∧
  ((m.g4 = [] ∧ m.g5 = []) ∨
    (m.g5 ≠ [] ∧ (∀ c ∈ m.g5, isWordOrDot c = true) ∧ m.g4 = '=' :: m.g5)) ∧
  m.g0 = '<' :: m.g1 ++ m.g2 ++ m.g4 ++ ['>']

/-- Required before optional: once an argument of the list has a default
value, every later one has one too. -/
def RequiredFirst (args : List arg) : Prop :=
  List.Pairwise (fun a b => a.isOptional = true → b.isOptional = true) args

/-- Follows the words of the specification ("whitespace-delimited"): a
whitespace character, that is, a character with the Unicode property
`White_Space` (the test of Go's `unicode.IsSpace`). -/
def specIsWhitespace (c : Char) : Bool :=
  (9 ≤ c.toNat && c.toNat ≤ 13) || c.toNat == 32 || c.toNat == 133 || c.toNat == 160 ||
    c.toNat == 5760 || (8192 ≤ c.toNat && c.toNat ≤ 8202) || c.toNat == 8232 ||
    c.toNat == 8233 || c.toNat == 8239 || c.toNat == 8287 || c.toNat == 12288

/-- Follows the words of the specification: the first whitespace-delimited
token of a string, that is, the first maximal run of non-whitespace
characters in it (the empty string when there is none). -/
def specFirstToken (s : Str) : Str :=
  (s.dropWhile specIsWhitespace).takeWhile (fun c => !specIsWhitespace c)

/-! ## The example of `example_test.go` -/

/-- A `ParseFloat` that rejects every token, for examples that use no float. -/
def rejectFloats : Str → Option Nat :=
  fun _ => none

/-- The parameter list of `func()`. -/
def sigNone : Signature :=
  { params := [], variadic := none }

/-- The parameter list of `func(name string)`. -/
def sigString : Signature :=
  { params := [GoType.string], variadic := none }

/-- The parameter list of `func(a, b string)`. -/
def sigStrings : Signature :=
  { params := [GoType.string, GoType.string], variadic := none }

/-- The parameter list of `func(n int)`. -/
def sigInt : Signature :=
  { params := [GoType.int], variadic := none }

/-- The parameter list of `func(from, to int, double bool)`. -/
def sigCount : Signature :=
  { params := [GoType.int, GoType.int, GoType.bool], variadic := none }

/-- The parameter list of `func(n int, quiet bool, level int)`. -/
def sigFlags : Signature :=
  { params := [GoType.int, GoType.bool, GoType.int], variadic := none }

/-- The registry that `ExampleApp` builds, the four handlers numbered in order
and given the parameter lists they have in `example_test.go`. -/
def exampleApp : App :=
  (Command rejectFloats
    (Command rejectFloats
      (Command rejectFloats
        (Command rejectFloats NewApp "hello <name:string>".toList (Handler.func 0 sigString)).app
        "goodbye <name:string=person>".toList (Handler.func 1 sigString)).app
      "ping".toList (Handler.func 2 sigNone)).app
    "count <from:int> <to:int> <double:bool=false>".toList (Handler.func 3 sigCount)).app

/-- A registry with the one command `hello <n:integer>`, its handler a
`func(n int)`. -/
def misfitApp : App :=
  (Command rejectFloats NewApp "hello <n:integer>".toList (Handler.func 0 sigInt)).app

/-- The fourth command of `exampleApp`. -/
def countCommand : command :=
  { name := "count".toList,
    usage := "count <from:int> <to:int> <double:bool=false>".toList,
    args := [{ name := "from".toList, checker := intChecker, defaultValue := none },
             { name := "to".toList, checker := intChecker, defaultValue := none },
             { name := "double".toList, checker := boolChecker,
               defaultValue := some (Value.bool false) }],
    handler := Handler.func 3 sigCount }

/-- A second command named `hello`, with an integer argument. -/
def helloIntCommand : command :=
  { name := "hello".toList,
    usage := "hello <n:int>".toList,
    args := [{ name := "n".toList, checker := intChecker, defaultValue := none }],
    handler := Handler.func 7 sigInt }

/-- The registry `exampleApp` with a second `hello` registered after the four
commands. -/
def duplicateApp : App :=
  (Command rejectFloats exampleApp "hello <n:int>".toList (Handler.func 7 sigInt)).app

/-! ## The regular expression: what a match looks like -/

theorem mem_takeWhile_imp {p : Char → Bool} {l : Str} {c : Char}
    (h : c ∈ l.takeWhile p) : p c = true := by
  induction l with
  | nil => simp at h
  | cons x xs ih =>
    rw [List.takeWhile_cons] at h
    split at h
    · rcases List.mem_cons.mp h with h1 | h1
      · subst h1; assumption
      · exact ih h1
    · simp at h

theorem matchTypeGroup_spec (s : Str) :
    (((matchTypeGroup s).1 = [] ∧ (matchTypeGroup s).2.1 = []) ∨
      ((matchTypeGroup s).2.1 ≠ [] ∧ (∀ c ∈ (matchTypeGroup s).2.1, isWordChar c = true) ∧
        (matchTypeGroup s).1 = ':' :: (matchTypeGroup s).2.1)) ∧
    s = (matchTypeGroup s).1 ++ (matchTypeGroup s).2.2 := by
  unfold matchTypeGroup
  split
  · rename_i t
    by_cases h : t.takeWhile isWordChar = []
    · simp [h]
    · simp only [h, if_false]
      refine ⟨Or.inr ⟨h, fun c hc => mem_takeWhile_imp hc, ?_⟩, ?_⟩ <;>
        simp [List.takeWhile_append_dropWhile]
  · simp

theorem matchDefaultGroup_spec (s : Str) :
    (((matchDefaultGroup s).1 = [] ∧ (matchDefaultGroup s).2.1 = []) ∨
      ((matchDefaultGroup s).2.1 ≠ [] ∧ (∀ c ∈ (matchDefaultGroup s).2.1, isWordOrDot c = true) ∧
        (matchDefaultGroup s).1 = '=' :: (matchDefaultGroup s).2.1)) ∧
    s = (matchDefaultGroup s).1 ++ (matchDefaultGroup s).2.2 := by
  unfold matchDefaultGroup
  split
  · rename_i t
    by_cases h : t.takeWhile isWordOrDot = []
    · simp [h]
    · simp only [h, if_false]
      refine ⟨Or.inr ⟨h, fun c hc => mem_takeWhile_imp hc, ?_⟩, ?_⟩ <;>
        simp [List.takeWhile_append_dropWhile]
  · simp

/-- A match at the start of `s` is well formed, and `s` is the text of the
match followed by the input left. -/
theorem argRegexpMatchAt_spec {s : Str} {m : Submatch} {rest : Str}
    (h : argRegexpMatchAt s = some (m, rest)) : m.WellFormed ∧ s = m.g0 ++ rest := by
  unfold argRegexpMatchAt at h
  split at h
  · rename_i r
    by_cases hn : r.takeWhile isWordChar = []
    · simp [hn] at h
    · simp only [hn, if_false] at h
      split at h
      · rename_i rest0 hgt
        simp only [Option.some.injEq, Prod.mk.injEq] at h
        obtain ⟨hm, hrest⟩ := h
        subst hm; subst hrest
        have ht := matchTypeGroup_spec (r.dropWhile isWordChar)
        have hd := matchDefaultGroup_spec (matchTypeGroup (r.dropWhile isWordChar)).2.2
        refine ⟨⟨⟨hn, fun c hc => mem_takeWhile_imp hc⟩, ht.1, hd.1, rfl⟩, ?_⟩
        have e1 : r = r.takeWhile isWordChar ++ r.dropWhile isWordChar :=
          (List.takeWhile_append_dropWhile isWordChar r).symm
        have e2 := ht.2
        have e3 := hd.2
        rw [hgt] at e3
        have key : r = r.takeWhile isWordChar ++
            ((matchTypeGroup (r.dropWhile isWordChar)).1 ++
              ((matchDefaultGroup (matchTypeGroup (r.dropWhile isWordChar)).2.2).1 ++
                '>' :: rest0)) := by
          rw [← e3, ← e2]
          exact e1
        simp only [List.cons_append, List.append_assoc, List.singleton_append, List.cons.injEq,
          true_and]
        exact key
      · simp at h
  · simp at h

theorem argRegexpMatchAt_length {s : Str} {m : Submatch} {rest : Str}
    (h : argRegexpMatchAt s = some (m, rest)) : rest.length < s.length := by
  obtain ⟨hw, hs⟩ := argRegexpMatchAt_spec h
  rw [hs, hw.2.2.2]
  simp
  omega

theorem takeWhile_append_stop {p : Char → Bool} (xs : Str) (y : Char) (ys : Str)
    (hxs : ∀ c ∈ xs, p c = true) (hy : p y = false) :
    (xs ++ y :: ys).takeWhile p = xs ∧ (xs ++ y :: ys).dropWhile p = y :: ys := by
  induction xs with
  | nil => simp [List.takeWhile_cons, List.dropWhile_cons, hy]
  | cons x rest ih =>
    have hx : p x = true := hxs x (by simp)
    have := ih (fun c hc => hxs c (by simp [hc]))
    simp [List.takeWhile_cons, List.dropWhile_cons, hx, this.1, this.2]

/-- The regular expression matches at the start of `s` exactly when `s` begins
with the text of a well-formed placeholder; the submatches are then those of
that placeholder and the input left is what follows it. -/
theorem argRegexpMatchAt_iff (s : Str) (m : Submatch) (rest : Str) :
    argRegexpMatchAt s = some (m, rest) ↔ m.WellFormed ∧ s = m.g0 ++ rest := by
  constructor
  · exact argRegexpMatchAt_spec
  · rintro ⟨⟨⟨h1n, h1w⟩, h23, h45, h0⟩, hs⟩
    obtain ⟨g0, g1, g2, g3, g4, g5⟩ := m
    simp only at h1n h1w h23 h45 h0 hs
    subst h0
    -- the input left after the default group starts with `>`
    have hD : matchDefaultGroup (g4 ++ '>' :: rest) = (g4, g5, '>' :: rest) := by
      rcases h45 with ⟨h4, h5⟩ | ⟨h5n, h5w, h4⟩
      · subst h4; subst h5
        simp [matchDefaultGroup]
      · subst h4
        have := takeWhile_append_stop (p := isWordOrDot) g5 '>' rest h5w (by decide)
        simp only [matchDefaultGroup, List.cons_append, this.1, this.2, h5n, if_false]
    have hnc : ∀ (t : Str), g4 ++ '>' :: rest = ':' :: t → False := by
      intro t ht
      rcases h45 with ⟨h4, _⟩ | ⟨_, _, h4⟩
      · subst h4; simp at ht
      · subst h4; simp at ht
    have hT : matchTypeGroup (g2 ++ (g4 ++ '>' :: rest)) = (g2, g3, g4 ++ '>' :: rest) := by
      rcases h23 with ⟨h2, h3⟩ | ⟨h3n, h3w, h2⟩
      · subst h2; subst h3
        simp only [List.nil_append]
        unfold matchTypeGroup
        split
        · rename_i t ht
          exact absurd ht (fun h => hnc t h)
        · rfl
      · subst h2
        have hstop : ∃ y ys, g4 ++ '>' :: rest = y :: ys ∧ isWordChar y = false := by
          rcases h45 with ⟨h4, _⟩ | ⟨_, _, h4⟩
          · subst h4; exact ⟨'>', rest, rfl, by decide⟩
          · subst h4; exact ⟨'=', _, rfl, by decide⟩
        obtain ⟨y, ys, hy, hyw⟩ := hstop
        rw [hy]
        have := takeWhile_append_stop (p := isWordChar) g3 y ys h3w hyw
        simp only [matchTypeGroup, List.cons_append, this.1, this.2, h3n, if_false]
    have hstop1 : ∃ y ys, g2 ++ (g4 ++ '>' :: rest) = y :: ys ∧ isWordChar y = false := by
      rcases h23 with ⟨h2, _⟩ | ⟨_, _, h2⟩
      · subst h2
        rcases h45 with ⟨h4, _⟩ | ⟨_, _, h4⟩
        · subst h4; exact ⟨'>', rest, rfl, by decide⟩
        · subst h4; exact ⟨'=', _, rfl, by decide⟩
      · subst h2; exact ⟨':', _, rfl, by decide⟩
    obtain ⟨y, ys, hy, hyw⟩ := hstop1
    have hN := takeWhile_append_stop (p := isWordChar) g1 y ys h1w hyw
    rw [← hy] at hN
    have hs2 : s = '<' :: (g1 ++ (g2 ++ (g4 ++ '>' :: rest))) := by
      rw [hs]; simp
    rw [hs2]
    unfold argRegexpMatchAt
    simp only [hN.1, hN.2, h1n, if_false, hT, hD]

/-- The first token of a usage string begins with `<` exactly when the string
itself does. -/
theorem firstToken_hasPrefixLt_iff (usage : Str) :
    hasPrefixLt ((stringsSplit usage).headD []) = true ↔ usage.head? = some '<' := by
  cases usage with
  | nil => simp [stringsSplit, hasPrefixLt]
  | cons c cs =>
    by_cases hc : c = ' '
    · subst hc
      simp [stringsSplit, hasPrefixLt]
    · cases hsp : stringsSplit cs with
      | nil =>
        simp [stringsSplit, hasPrefixLt, hc, hsp]
        exact eq_comm
      | cons piece pieces =>
        simp [stringsSplit, hasPrefixLt, hc, hsp]
        exact eq_comm
/-- Fuel beyond the length of the input changes nothing: the scan always
runs to the end of the input. -/
theorem findAllFrom_fuel (f1 : Nat) : ∀ (f2 : Nat) (s : Str), s.length < f1 → s.length < f2 →
    findAllFrom f1 s = findAllFrom f2 s := by
  induction f1 with
  | zero => intro f2 s h; omega
  | succ n ih =>
    intro f2 s h1 h2
    cases f2 with
    | zero => omega
    | succ k =>
      cases s with
      | nil => rfl
      | cons c cs =>
        simp only [findAllFrom]
        simp only [List.length_cons] at h1 h2
        cases hm : argRegexpMatchAt (c :: cs) with
        | none => exact ih k cs (by omega) (by omega)
        | some mr =>
          obtain ⟨m, rest⟩ := mr
          have hl := argRegexpMatchAt_length hm
          simp only [List.length_cons] at hl
          simp only
          rw [ih k rest (by omega) (by omega)]

theorem argRegexpFindAll_nil : argRegexpFindAll [] = [] := rfl

/-- The scan, one step at a time. -/
theorem argRegexpFindAll_cons (c : Char) (cs : Str) :
    argRegexpFindAll (c :: cs) =
      match argRegexpMatchAt (c :: cs) with
      | some (m, rest) => m :: argRegexpFindAll rest
      | none => argRegexpFindAll cs := by
  unfold argRegexpFindAll
  simp only [findAllFrom, List.length_cons]
  cases hm : argRegexpMatchAt (c :: cs) with
  | none => rfl
  | some mr =>
    obtain ⟨m, rest⟩ := mr
    have hl := argRegexpMatchAt_length hm
    simp only [List.length_cons] at hl
    simp only
    rw [findAllFrom_fuel (cs.length + 1) (rest.length + 1) rest (by omega) (by omega)]

/-- Every match the scan returns is well formed. -/
theorem argRegexpFindAll_wellFormed (n : Nat) : ∀ (usage : Str), usage.length ≤ n →
    ∀ m ∈ argRegexpFindAll usage, m.WellFormed := by
  induction n with
  | zero =>
    intro usage h m hm
    have : usage = [] := List.length_eq_zero.mp (by omega)
    subst this
    simp [argRegexpFindAll_nil] at hm
  | succ n ih =>
    intro usage h m hm
    cases usage with
    | nil => simp [argRegexpFindAll_nil] at hm
    | cons c cs =>
      rw [argRegexpFindAll_cons] at hm
      simp only [List.length_cons] at h
      cases hma : argRegexpMatchAt (c :: cs) with
      | none =>
        rw [hma] at hm
        exact ih cs (by omega) m hm
      | some mr =>
        obtain ⟨m0, rest⟩ := mr
        rw [hma] at hm
        have hl := argRegexpMatchAt_length hma
        simp only [List.length_cons] at hl
        rcases List.mem_cons.mp hm with h1 | h1
        · subst h1
          exact (argRegexpMatchAt_spec hma).1
        · exact ih rest (by omega) m h1

/-! ## Registration: what `Command` builds -/

theorem minArgCount_foldl (l : List arg) (n : Nat) :
    l.foldl (fun k a => if !a.isOptional then k + 1 else k) n =
      n + l.countP (fun a => !a.isOptional) := by
  induction l generalizing n with
  | nil => simp
  | cons a rest ih =>
    simp only [List.foldl_cons, List.countP_cons, ih]
    cases a.isOptional
    · simp; omega
    · simp

/-- The count `minArgCount` is the number of arguments without a default. -/
theorem minArgCount_eq_countP (c : command) :
    c.minArgCount = c.args.countP (fun a => !a.isOptional) := by
  unfold command.minArgCount
  rw [minArgCount_foldl]
  simp

/-- What the loop of `Command` returns when it does not panic: one descriptor
per match, in order, each built by `newArgFromRegexpMatch`; all of them
optional when the flag was set on entry; and required before optional. -/
theorem commandArgs_ok (ParseFloat : Str → Option Nat) :
    ∀ (ms : List Submatch) (hasOptional : Bool) (args : List arg),
      commandArgs ParseFloat ms hasOptional = Except.ok args →
      List.Forall₂ (fun m a => newArgFromRegexpMatch ParseFloat m = Except.ok a) ms args ∧
      (hasOptional = true → ∀ a ∈ args, a.isOptional = true) ∧ RequiredFirst args := by
  intro ms
  induction ms with
  | nil =>
    intro hasOptional args h
    simp only [commandArgs, Except.ok.injEq] at h
    subst h
    exact ⟨List.Forall₂.nil, by simp, List.Pairwise.nil⟩
  | cons m rest ih =>
    intro hasOptional args h
    rw [commandArgs] at h
    split at h
    · simp at h
    · rename_i a hn
      split at h
      · simp at h
      · rename_i hc
        split at h
        · simp at h
        · rename_i args0 hr
          simp only [Except.ok.injEq] at h
          subst h
          obtain ⟨h1, h2, h3⟩ := ih _ _ hr
          refine ⟨List.Forall₂.cons hn h1, ?_, ?_⟩
          · intro ho b hb
            have ha : a.isOptional = true := by
              cases hao : a.isOptional with
              | true => rfl
              | false => simp [ho, hao] at hc
            rcases List.mem_cons.mp hb with hb | hb
            · subst hb; exact ha
            · exact h2 (by simp [ha]) b hb
          · refine List.Pairwise.cons ?_ h3
            intro b hb ha
            exact h2 (by simp [ha]) b hb

/-- The two ways a call of `Command` can end: with a panic and the registry
untouched, or with one command appended, built from the usage string. -/
theorem Command_cases (ParseFloat : Str → Option Nat) (a : App) (usage : Str)
    (handler : Handler) :
    ((∃ p, (Command ParseFloat a usage handler).panicked = some p) ∧
      (Command ParseFloat a usage handler).app = a) ∨
    (∃ id sig args, handler = Handler.func id sig ∧
      commandArgs ParseFloat (argRegexpFindAll usage) false = Except.ok args ∧
      hasPrefixLt ((stringsSplit usage).headD []) = false ∧
      (Command ParseFloat a usage handler).panicked = none ∧
      (Command ParseFloat a usage handler).app =
        { commands := a.commands ++
            [{ name := (stringsSplit usage).headD [], usage := usage, args := args,
               handler := handler }] }) := by
  cases handler with
  | nil => left; exact ⟨⟨_, rfl⟩, rfl⟩
  | other t => left; exact ⟨⟨_, rfl⟩, rfl⟩
  | func id sig =>
    cases hc : commandArgs ParseFloat (argRegexpFindAll usage) false with
    | error p =>
      left
      simp [Command, hc]
    | ok args =>
      by_cases hp : hasPrefixLt ((stringsSplit usage).headD []) = true
      · left
        unfold Command
        simp only [hc]
        rw [if_pos hp]
        exact ⟨⟨_, rfl⟩, rfl⟩
      · right
        refine ⟨id, sig, args, rfl, rfl, by simpa using hp, ?_, ?_⟩
        · unfold Command
          simp only [hc]
          rw [if_neg hp]
        · unfold Command
          simp only [hc]
          rw [if_neg hp]

/-- Every command of a reachable registry keeps required arguments before
optional ones and has a function as its handler. -/
theorem Reachable.valid {ParseFloat : Str → Option Nat} {a : App}
    (h : Reachable ParseFloat a) :
    ∀ c ∈ a.commands, RequiredFirst c.args ∧ ∃ id sig, c.handler = Handler.func id sig := by
  induction h with
  | newApp => intro c hc; simp [NewApp] at hc
  | command a usage handler _ ih =>
    rcases Command_cases ParseFloat a usage handler with ⟨_, happ⟩ | ⟨id, sig, args, hh, hargs, _, _, happ⟩
    · rw [happ]; exact ih
    · rw [happ]
      intro c hc
      simp only [List.mem_append, List.mem_singleton] at hc
      rcases hc with hc | hc
      · exact ih c hc
      · subst hc
        exact ⟨(commandArgs_ok ParseFloat _ _ _ hargs).2.2, id, sig, hh⟩

/-! ## Dispatch: the lookup -/

theorem findTarget_snoc (l : List command) (x : command) (name : Str) :
    findTarget (l ++ [x]) name = if x.name = name then some x else findTarget l name := by
  simp [findTarget, List.foldl_append]

/-- The lookup finds nothing exactly when no registered command has the name. -/
theorem findTarget_eq_none_iff (l : List command) (name : Str) :
    findTarget l name = none ↔ ∀ c ∈ l, c.name ≠ name := by
  induction l using List.reverseRecOn with
  | nil => simp [findTarget]
  | append_singleton l x ih =>
    rw [findTarget_snoc]
    by_cases hx : x.name = name
    · simp only [hx, if_true]
      constructor
      · intro h; cases h
      · intro h; exact absurd hx (h x (by simp))
    · simp only [hx, if_false, ih]
      constructor
      · intro h c hc
        simp only [List.mem_append, List.mem_singleton] at hc
        rcases hc with hc | hc
        · exact h c hc
        · subst hc; exact hx
      · intro h c hc
        exact h c (by simp [hc])

/-- The lookup returns the last command of the registry that has the name. -/
theorem findTarget_eq_some_iff (l : List command) (name : Str) (c : command) :
    findTarget l name = some c ↔
      ∃ pre post, l = pre ++ c :: post ∧ c.name = name ∧ ∀ d ∈ post, d.name ≠ name := by
  induction l using List.reverseRecOn with
  | nil => simp [findTarget]
  | append_singleton l x ih =>
    rw [findTarget_snoc]
    by_cases hx : x.name = name
    · simp only [hx, if_true, Option.some.injEq]
      constructor
      · intro h
        subst h
        exact ⟨l, [], rfl, hx, by simp⟩
      · rintro ⟨pre, post, hl, _, hpost⟩
        rcases List.eq_nil_or_concat post with hp | ⟨post0, y, hp⟩
        · subst hp
          have := List.append_inj_right' hl (by simp)
          simpa using this
        · subst hp
          have h2 : l ++ [x] = (pre ++ c :: post0) ++ [y] := by simpa using hl
          have h3 := List.append_inj_right' h2 (by simp)
          simp only [List.cons.injEq, and_true] at h3
          subst h3
          exact absurd hx (hpost x (by simp))
    · simp only [hx, if_false, ih]
      constructor
      · rintro ⟨pre, post, hl, hc, hpost⟩
        refine ⟨pre, post ++ [x], by simp [hl], hc, ?_⟩
        intro d hd
        simp only [List.mem_append, List.mem_singleton] at hd
        rcases hd with hd | hd
        · exact hpost d hd
        · subst hd; exact hx
      · rintro ⟨pre, post, hl, hc, hpost⟩
        rcases List.eq_nil_or_concat post with hp | ⟨post0, y, hp⟩
        · subst hp
          have h3 := List.append_inj_right' hl (by simp)
          simp only [List.cons.injEq, and_true] at h3
          subst h3
          exact absurd hc hx
        · subst hp
          have h2 : l ++ [x] = (pre ++ c :: post0) ++ [y] := by simpa using hl
          have h3 := List.append_inj_left' h2 (by simp)
          refine ⟨pre, post0, h3, hc, ?_⟩
          intro d hd
          exact hpost d (by simp [hd])

theorem findTarget_mem {l : List command} {name : Str} {c : command}
    (h : findTarget l name = some c) : c ∈ l ∧ c.name = name := by
  obtain ⟨pre, post, hl, hc, _⟩ := (findTarget_eq_some_iff l name c).mp h
  exact ⟨by simp [hl], hc⟩

/-! ## Dispatch: the binding loop -/

/-- With required arguments first, an argument without a default sits at an
index below the number of such arguments. -/
theorem RequiredFirst.index_lt_countP :
    ∀ (args : List arg), RequiredFirst args → ∀ (k : Nat) (a : arg), args[k]? = some a →
      a.isOptional = false → k < args.countP (fun a => !a.isOptional) := by
  intro args
  induction args with
  | nil => intro _ k a h; simp at h
  | cons x rest ih =>
    intro hrf k a hk ha
    have hrf2 := List.pairwise_cons.mp hrf
    cases k with
    | zero =>
      simp only [List.getElem?_cons_zero, Option.some.injEq] at hk
      subst hk
      simp [List.countP_cons, ha]
    | succ k =>
      simp only [List.getElem?_cons_succ] at hk
      have hmem : a ∈ rest := List.getElem?_mem hk
      have hx : x.isOptional = false := by
        cases hxo : x.isOptional with
        | false => rfl
        | true => rw [hrf2.1 a hmem hxo] at ha; cases ha
      have := ih hrf2.2 k a hk ha
      simp [List.countP_cons, hx]
      omega

/-- The binding loop succeeds when every argument without a default has a
token and every token at an argument position converts; the value at each
position is the converted token where one is supplied and the default value
where none is. -/
theorem bindValues_ok (args : List Str) :
    ∀ (rest : List arg) (i : Nat),
      (∀ k a, rest[k]? = some a → a.isOptional = false → i + k + 1 < args.length) →
      (∀ k a tok, rest[k]? = some a → args[i + k + 1]? = some tok →
        (a.checker tok).isSome = true) →
      ∃ values, bindValues args i rest = Except.ok values ∧ values.length = rest.length ∧
        ∀ k a, rest[k]? = some a →
          values[k]? = (match args[i + k + 1]? with
                        | some tok => a.checker tok
                        | none => a.defaultValue) := by
  intro rest
  induction rest with
  | nil => intro i _ _; exact ⟨[], rfl, rfl, by simp⟩
  | cons x rest ih =>
    intro i hreq hconv
    have hrest := ih (i + 1)
      (fun k a hk ha => by have := hreq (k + 1) a (by simpa using hk) ha; omega)
      (fun k a tok hk ht => hconv (k + 1) a tok (by simpa using hk)
        (by rw [← ht]; congr 1; omega))
    obtain ⟨vs, hvs, hlen, hval⟩ := hrest
    have htok : ∀ tok, args[i + 1]? = some tok →
        ∃ v, x.checker tok = some v ∧ bindToken args i x = Except.ok v := by
      intro tok ht
      have h1 := hconv 0 x tok (by simp) (by simpa using ht)
      obtain ⟨v, hv⟩ := Option.isSome_iff_exists.mp h1
      exact ⟨v, hv, by simp [bindToken, ht, hv]⟩
    have hhead : ∃ v, bindValue args i x = Except.ok v ∧
        some v = (match args[i + 1]? with
                  | some tok => x.checker tok
                  | none => x.defaultValue) := by
      cases hd : x.defaultValue with
      | none =>
        have hlt := hreq 0 x (by simp) (by simp [arg.isOptional, hd])
        have hget : args[i + 1]? = some (args[i + 1]) := List.getElem?_eq_getElem (by omega)
        obtain ⟨v, hv, hb⟩ := htok _ hget
        exact ⟨v, by simp [bindValue, hd, hb], by rw [hget]; exact hv.symm⟩
      | some d =>
        by_cases hc : (args.length : Int) - 2 ≥ (i : Int)
        · have hget : args[i + 1]? = some (args[i + 1]) := List.getElem?_eq_getElem (by omega)
          obtain ⟨v, hv, hb⟩ := htok _ hget
          exact ⟨v, by simp only [bindValue, hd, if_pos hc, hb], by rw [hget]; exact hv.symm⟩
        · have hget : args[i + 1]? = none := List.getElem?_eq_none (by omega)
          exact ⟨d, by simp only [bindValue, hd, if_neg hc], by rw [hget]⟩
    obtain ⟨v, hv, hvv⟩ := hhead
    refine ⟨v :: vs, by simp [bindValues, hv, hvs], by simp [hlen], ?_⟩
    intro k a hk
    cases k with
    | zero =>
      simp only [List.getElem?_cons_zero, Option.some.injEq] at hk
      subst hk
      simpa using hvv
    | succ k =>
      simp only [List.getElem?_cons_succ] at hk ⊢
      rw [hval k a hk]
      have : i + 1 + k + 1 = i + (k + 1) + 1 := by omega
      rw [this]

/-- The binding loop stops with a conversion error as soon as a supplied
token at an argument position is rejected by that position's checker. -/
theorem bindValues_conversion (args : List Str) :
    ∀ (rest : List arg) (i k : Nat) (a : arg) (tok : Str),
      rest[k]? = some a → args[i + k + 1]? = some tok → a.checker tok = none →
      bindValues args i rest = Except.error BindStop.conversion := by
  intro rest
  induction rest with
  | nil => intro i k a tok hk; simp at hk
  | cons x rest ih =>
    intro i k a tok hk ht hrej
    have hlen : i + k + 1 < args.length := by
      by_contra hcon
      rw [List.getElem?_eq_none (by omega)] at ht
      cases ht
    have hget : args[i + 1]? = some (args[i + 1]) := List.getElem?_eq_getElem (by omega)
    have hcond : (args.length : Int) - 2 ≥ (i : Int) := by omega
    have hbv : bindValue args i x = bindToken args i x := by
      unfold bindValue
      cases x.defaultValue with
      | none => rfl
      | some d => simp only [if_pos hcond]
    cases k with
    | zero =>
      simp only [List.getElem?_cons_zero, Option.some.injEq] at hk
      subst hk
      have ht2 : args[i + 1]? = some tok := by simpa using ht
      simp [bindValues, hbv, bindToken, ht2, hrej]
    | succ k =>
      simp only [List.getElem?_cons_succ] at hk
      have hih := ih (i + 1) k a tok hk (by rw [← ht]; congr 1; omega) hrej
      rw [bindValues, hbv, hih]
      simp only [bindToken, hget]
      cases x.checker args[i + 1] <;> rfl

/-! ## Dispatch: the claims -/

/-- C1, the claim as stated fails: the command `hello <n:integer>` registered
with a handler `func(n int)` is selected by `prog hello 5`, one token follows
for its one required argument and the argument's checker (the string checker,
`integer` being no known tag) accepts the token; yet the handler is not
invoked: `reflect.Value.Call` panics, the string `5` not being assignable to
the parameter of type `int`. -/
theorem Run_misfit_counterexample :
    (Command rejectFloats NewApp "hello <n:integer>".toList (Handler.func 0 sigInt)).panicked =
      none ∧
    (findTarget misfitApp.commands "hello".toList).map
      (fun c => (c.handler, c.minArgCount, c.args.map (fun ar => ar.checker "5".toList))) =
      some (Handler.func 0 sigInt, 1, [some (Value.str "5".toList)]) ∧
    Run misfitApp ["prog".toList, "hello".toList, "5".toList] =
      { stderr := [], calls := [], status := Status.panicked Panic.callMismatch } := by
  decide

/-- C1, amended: in a registry built by `NewApp` and `Command`, when the first
trailing token selects a command, at least `minArgCount` tokens follow the
command name and every token at a declared argument position is accepted by
that position's checker, binding yields one value per declared argument, the
value at a position being the converted token where a token is supplied and
the argument's default value where none is (the argument is then
optional).  When the handler's parameters fit these values, `Run` invokes the
handler exactly once, with this value list, writes nothing to standard error
and does not exit; when they do not fit, `reflect.Value.Call` panics and the
handler is not invoked. -/
theorem Run_calls_fitting_handler (ParseFloat : Str → Option Nat) (a : App) (c : command)
    (program name : Str) (toks : List Str)
    (hreach : Reachable ParseFloat a)
    (hsel : findTarget a.commands name = some c)
    (hcount : c.minArgCount ≤ toks.length)
    (hconv : ∀ (i : Nat) (ar : arg) (tok : Str), c.args[i]? = some ar → toks[i]? = some tok →
      (ar.checker tok).isSome = true) :
    ∃ id sig values,
      c.handler = Handler.func id sig ∧
      values.length = c.args.length ∧
      (∀ (i : Nat) (ar : arg), c.args[i]? = some ar →
        values[i]? = (match toks[i]? with
                      | some tok => ar.checker tok
                      | none => ar.defaultValue) ∧
        (toks[i]? = none → ar.isOptional = true)) ∧
      (sig.fits values = true →
        Run a (program :: name :: toks) =
          { stderr := [], calls := [(c.handler, values)], status := Status.returned }) ∧
      (sig.fits values = false →
        Run a (program :: name :: toks) =
          { stderr := [], calls := [], status := Status.panicked Panic.callMismatch }) := by
  obtain ⟨hrf, id, sig, hid⟩ := hreach.valid c (findTarget_mem hsel).1
  have hreq : ∀ (k : Nat) (ar : arg), c.args[k]? = some ar → ar.isOptional = false →
      0 + k + 1 < (name :: toks).length := by
    intro k ar hk har
    have h1 := RequiredFirst.index_lt_countP c.args hrf k ar hk har
    rw [← minArgCount_eq_countP] at h1
    simp only [List.length_cons]
    omega
  have hcv : ∀ (k : Nat) (ar : arg) (tok : Str), c.args[k]? = some ar → (name :: toks)[0 + k + 1]? = some tok →
      (ar.checker tok).isSome = true := by
    intro k ar tok hk ht
    exact hconv k ar tok hk (by simpa using ht)
  obtain ⟨values, hb, hlen, hval⟩ := bindValues_ok (name :: toks) c.args 0 hreq hcv
  have hnot : ¬ (((name :: toks).length : Int) - 1 < (c.minArgCount : Int)) := by
    simp only [List.length_cons]
    push_cast
    omega
  refine ⟨id, sig, values, hid, hlen, ?_, ?_, ?_⟩
  · intro i ar hi
    have hv := hval i ar hi
    have hv2 : values[i]? = (match toks[i]? with
                             | some tok => ar.checker tok
                             | none => ar.defaultValue) := by
      rw [hv]
      simp
    refine ⟨hv2, ?_⟩
    intro hnone
    have hlt : i < values.length := by
      rw [hlen]
      by_contra hcon
      rw [List.getElem?_eq_none (by omega)] at hi
      cases hi
    rw [hnone, List.getElem?_eq_getElem hlt] at hv2
    have hv3 : ar.defaultValue = some values[i] := hv2.symm
    simp [arg.isOptional, hv3]
  · intro hfit
    simp only [Run, hsel, runTarget, if_neg hnot, hb, hid, hfit, if_true]
  · intro hfit
    simp only [Run, hsel, runTarget, if_neg hnot, hb, hid, hfit]
    rfl

/-- The command `count` of the example on `prog count 1 3`: two tokens for two
required arguments, the third argument takes its default; the handler
`func(from, to int, double bool)` fits the values. -/
theorem Run_calls_fitting_handler_witness :
    ∃ id sig values,
      countCommand.handler = Handler.func id sig ∧
      values.length = countCommand.args.length ∧
      (∀ (i : Nat) (ar : arg), countCommand.args[i]? = some ar →
        values[i]? = (match ["1".toList, "3".toList][i]? with
                      | some tok => ar.checker tok
                      | none => ar.defaultValue) ∧
        (["1".toList, "3".toList][i]? = none → ar.isOptional = true)) ∧
      (sig.fits values = true →
        Run exampleApp ["prog".toList, "count".toList, "1".toList, "3".toList] =
          { stderr := [], calls := [(countCommand.handler, values)],
            status := Status.returned }) ∧
      (sig.fits values = false →
        Run exampleApp ["prog".toList, "count".toList, "1".toList, "3".toList] =
          { stderr := [], calls := [], status := Status.panicked Panic.callMismatch }) :=
  Run_calls_fitting_handler rejectFloats exampleApp countCommand "prog".toList "count".toList
    ["1".toList, "3".toList]
    (Reachable.command _ _ _ (Reachable.command _ _ _ (Reachable.command _ _ _
      (Reachable.command _ _ _ Reachable.newApp))))
    rfl (by decide)
    (by
      intro i ar tok hi ht
      match i with
      | 0 =>
        simp only [countCommand, List.getElem?_cons_zero, Option.some.injEq] at hi ht
        subst hi; subst ht; decide
      | 1 =>
        simp only [countCommand, List.getElem?_cons_succ, List.getElem?_cons_zero,
          Option.some.injEq] at hi ht
        subst hi; subst ht; decide
      | n + 2 => simp at ht)

/-- C2: when the first trailing token selects a command and fewer tokens follow
the command name than the command has arguments without a default
(`minArgCount`), `Run` calls no handler, writes that one command's usage line
to standard error and exits with status 1. -/
theorem Run_too_few_tokens (a : App) (c : command) (program name : Str) (toks : List Str)
    (hsel : findTarget a.commands name = some c)
    (hfew : toks.length < c.args.countP (fun ar => !ar.isOptional)) :
    c.minArgCount = c.args.countP (fun ar => !ar.isOptional) ∧
    Run a (program :: name :: toks) =
      { stderr := "usage: ".toList ++ filepathBase program ++ " ".toList ++ c.usage ++ "\n".toList,
        calls := [], status := Status.exited 1 } := by
  refine ⟨minArgCount_eq_countP c, ?_⟩
  have hlt : (((name :: toks).length : Int) - 1 < (c.minArgCount : Int)) := by
    rw [minArgCount_eq_countP]
    simp only [List.length_cons]
    push_cast
    omega
  simp only [Run, hsel, runTarget, if_pos hlt, command.printUsage]

/-- The command `count` of the example with one token for two required
arguments. -/
theorem Run_too_few_tokens_witness :
    countCommand.minArgCount = countCommand.args.countP (fun ar => !ar.isOptional) ∧
    Run exampleApp ["/usr/bin/prog".toList, "count".toList, "1".toList] =
      { stderr := "usage: ".toList ++ filepathBase "/usr/bin/prog".toList ++ " ".toList ++
          countCommand.usage ++ "\n".toList,
        calls := [], status := Status.exited 1 } :=
  Run_too_few_tokens exampleApp countCommand "/usr/bin/prog".toList "count".toList ["1".toList]
    rfl (by decide)

/-- C3: when the first trailing token selects a command and some supplied token
at a declared argument position, required or optional, is rejected by that
position's checker, `Run` calls no handler, writes that command's usage line
to standard error and exits with status 1; a rejected token at the position
of an optional argument is an error too, the default is not used.  (With too
few tokens the outcome is the same, so no hypothesis on their number is
needed.) -/
theorem Run_rejected_token (a : App) (c : command) (program name : Str) (toks : List Str)
    (i : Nat) (ar : arg) (tok : Str)
    (hsel : findTarget a.commands name = some c)
    (hi : c.args[i]? = some ar) (ht : toks[i]? = some tok)
    (hrej : ar.checker tok = none) :
    Run a (program :: name :: toks) =
      { stderr := "usage: ".toList ++ filepathBase program ++ " ".toList ++ c.usage ++ "\n".toList,
        calls := [], status := Status.exited 1 } := by
  have hb := bindValues_conversion (name :: toks) c.args 0 i ar tok hi (by simpa using ht) hrej
  simp only [Run, hsel, runTarget, hb, command.printUsage]
  split <;> rfl

/-- The command `count` of the example with `maybe` at the position of its
optional `bool` argument. -/
theorem Run_rejected_token_witness :
    Run exampleApp ["prog".toList, "count".toList, "1".toList, "3".toList, "maybe".toList] =
      { stderr := "usage: ".toList ++ filepathBase "prog".toList ++ " ".toList ++
          countCommand.usage ++ "\n".toList,
        calls := [], status := Status.exited 1 } :=
  Run_rejected_token exampleApp countCommand "prog".toList "count".toList
    ["1".toList, "3".toList, "maybe".toList] 2
    { name := "double".toList, checker := boolChecker, defaultValue := some (Value.bool false) }
    "maybe".toList rfl rfl rfl (by decide)

/-- C4: when `argv` is the program path alone, or its first trailing argument is
the name of no registered command, `Run` calls no handler, writes the usage
listing of all registered commands to standard error and exits with status
1. -/
theorem Run_no_command (a : App) (program : Str) (trailing : List Str)
    (h : trailing = [] ∨ ∃ name rest, trailing = name :: rest ∧ ∀ c ∈ a.commands, c.name ≠ name) :
    Run a (program :: trailing) =
      { stderr := a.printUsage (filepathBase program), calls := [], status := Status.exited 1 } := by
  rcases h with h | ⟨name, rest, h, hno⟩
  · subst h; rfl
  · subst h
    have := (findTarget_eq_none_iff a.commands name).mpr hno
    simp only [Run, this]

/-- The example registry has no command named `help`. -/
theorem Run_no_command_witness :
    Run exampleApp ["prog".toList, "help".toList] =
      { stderr := exampleApp.printUsage (filepathBase "prog".toList), calls := [],
        status := Status.exited 1 } :=
  Run_no_command exampleApp "prog".toList ["help".toList]
    (Or.inr ⟨"help".toList, [], rfl, by
      intro c hc
      have hmem : c.name ∈ exampleApp.commands.map (fun d => d.name) := List.mem_map_of_mem _ hc
      have hnames : exampleApp.commands.map (fun d => d.name) =
          ["hello".toList, "goodbye".toList, "ping".toList, "count".toList] := by decide
      rw [hnames] at hmem
      intro heq
      rw [heq] at hmem
      revert hmem
      decide⟩)

/-! ## Registration: the claims -/

theorem forall₂_getElem? {α β : Type} {R : α → β → Prop} {l₁ : List α} {l₂ : List β}
    (h : List.Forall₂ R l₁ l₂) :
    ∀ (i : Nat) (x : α), l₁[i]? = some x → ∃ y, l₂[i]? = some y ∧ R x y := by
  induction h with
  | nil => intro i x hx; simp at hx
  | cons hr _ ih =>
    intro i x hx
    cases i with
    | zero =>
      simp only [List.getElem?_cons_zero, Option.some.injEq] at hx
      subst hx
      exact ⟨_, by simp, hr⟩
    | succ i =>
      simp only [List.getElem?_cons_succ] at hx ⊢
      exact ih i x hx

theorem pairwise_getElem? {α : Type} {R : α → α → Prop} :
    ∀ (l : List α), List.Pairwise R l → ∀ (i j : Nat) (x y : α), i < j →
      l[i]? = some x → l[j]? = some y → R x y := by
  intro l
  induction l with
  | nil => intro _ i j x y _ hx; simp at hx
  | cons a rest ih =>
    intro hp i j x y hij hx hy
    have hp2 := List.pairwise_cons.mp hp
    cases j with
    | zero => omega
    | succ j =>
      simp only [List.getElem?_cons_succ] at hy
      cases i with
      | zero =>
        simp only [List.getElem?_cons_zero, Option.some.injEq] at hx
        subst hx
        exact hp2.1 y (List.getElem?_mem hy)
      | succ i =>
        simp only [List.getElem?_cons_succ] at hx
        exact ih hp2.2 i j x y (by omega) hx hy

/-- What `newArgFromRegexpMatch` returns when it does not panic. -/
theorem newArgFromRegexpMatch_ok {ParseFloat : Str → Option Nat} {m : Submatch} {ar : arg}
    (h : newArgFromRegexpMatch ParseFloat m = Except.ok ar) :
    ar.name = m.g1 ∧ ar.checker = selectChecker ParseFloat m.g3 ∧
    ((m.g5 = [] ∧ ar.defaultValue = none) ∨
      (m.g5 ≠ [] ∧ ∃ v, selectChecker ParseFloat m.g3 m.g5 = some v ∧
        ar.defaultValue = some v)) := by
  unfold newArgFromRegexpMatch at h
  by_cases h5 : m.g5 = []
  · simp only [h5, ne_eq, not_true_eq_false, if_false, Except.ok.injEq] at h
    subst h
    exact ⟨rfl, rfl, Or.inl ⟨h5, rfl⟩⟩
  · simp only [ne_eq, h5, not_false_eq_true, if_true] at h
    cases hc : selectChecker ParseFloat m.g3 m.g5 with
    | none => simp [hc] at h
    | some v =>
      simp only [hc, Except.ok.injEq] at h
      subst h
      exact ⟨rfl, rfl, Or.inr ⟨h5, v, rfl, rfl⟩⟩

/-- In a well-formed match the default group took part exactly when the
default literal is not empty. -/
theorem Submatch.WellFormed.g4_ne_nil_iff {m : Submatch} (h : m.WellFormed) :
    m.g4 ≠ [] ↔ m.g5 ≠ [] := by
  rcases h.2.2.1 with ⟨h4, h5⟩ | ⟨h5, _, h4⟩
  · simp [h4, h5]
  · simp [h4, h5]

/-- A successful call of `Command`: the command appended and, match by match,
the descriptor built for it. -/
theorem Command_ok {ParseFloat : Str → Option Nat} {a : App} {usage : Str} {handler : Handler}
    (h : (Command ParseFloat a usage handler).panicked = none) :
    ∃ c, (Command ParseFloat a usage handler).app = { commands := a.commands ++ [c] } ∧
      c.name = (stringsSplit usage).headD [] ∧ c.usage = usage ∧ c.handler = handler ∧
      hasPrefixLt ((stringsSplit usage).headD []) = false ∧
      (∃ id sig, handler = Handler.func id sig) ∧
      RequiredFirst c.args ∧
      List.Forall₂ (fun m ar => newArgFromRegexpMatch ParseFloat m = Except.ok ar)
        (argRegexpFindAll usage) c.args := by
  rcases Command_cases ParseFloat a usage handler with
    ⟨⟨p, hp⟩, _⟩ | ⟨id, sig, args, hh, hargs, hpre, _, happ⟩
  · rw [hp] at h; cases h
  · obtain ⟨h1, _, h3⟩ := commandArgs_ok ParseFloat _ _ _ hargs
    exact ⟨_, happ, rfl, rfl, rfl, hpre, ⟨id, sig, hh⟩, h3, h1⟩

/-- C5: when, among the placeholders of the usage string, one without a default
value comes after one with a default value, `Command` panics and the
registry's command list is what it was before the call. -/
theorem Command_misordered_panics (ParseFloat : Str → Option Nat) (a : App) (usage : Str)
    (handler : Handler) (i j : Nat) (mi mj : Submatch)
    (hij : i < j)
    (hi : (argRegexpFindAll usage)[i]? = some mi) (hj : (argRegexpFindAll usage)[j]? = some mj)
    (hdi : mi.g4 ≠ []) (hdj : mj.g4 = []) :
    (∃ p, (Command ParseFloat a usage handler).panicked = some p) ∧
    (Command ParseFloat a usage handler).app.commands = a.commands := by
  rcases Command_cases ParseFloat a usage handler with
    ⟨hp, happ⟩ | ⟨id, sig, args, _, hargs, _, _, _⟩
  · exact ⟨hp, by rw [happ]⟩
  · exfalso
    obtain ⟨h1, _, h3⟩ := commandArgs_ok ParseFloat _ _ _ hargs
    obtain ⟨ai, hai, hni⟩ := forall₂_getElem? h1 i mi hi
    obtain ⟨aj, haj, hnj⟩ := forall₂_getElem? h1 j mj hj
    have hwi := argRegexpFindAll_wellFormed usage.length usage (Nat.le_refl _) mi
      (List.getElem?_mem hi)
    have hwj := argRegexpFindAll_wellFormed usage.length usage (Nat.le_refl _) mj
      (List.getElem?_mem hj)
    have h5i : mi.g5 ≠ [] := hwi.g4_ne_nil_iff.mp hdi
    have h5j : mj.g5 = [] := by
      by_contra hcon
      exact (hwj.g4_ne_nil_iff.mpr hcon) hdj
    have hoi : ai.isOptional = true := by
      rcases (newArgFromRegexpMatch_ok hni).2.2 with ⟨h5, _⟩ | ⟨_, v, _, hv⟩
      · exact absurd h5 h5i
      · simp [arg.isOptional, hv]
    have hoj : aj.isOptional = false := by
      rcases (newArgFromRegexpMatch_ok hnj).2.2 with ⟨_, hv⟩ | ⟨h5, _⟩
      · simp [arg.isOptional, hv]
      · exact absurd h5j h5
    have := pairwise_getElem? args h3 i j ai aj hij hai haj hoi
    rw [hoj] at this
    cases this

/-- The usage string `add <a:int=1> <b:int>` puts a required argument after
an optional one. -/
theorem Command_misordered_panics_witness :
    (∃ p, (Command rejectFloats exampleApp "add <a:int=1> <b:int>".toList
        (Handler.func 9 sigNone)).panicked = some p) ∧
    (Command rejectFloats exampleApp "add <a:int=1> <b:int>".toList (Handler.func 9 sigNone)).app.commands =
      exampleApp.commands :=
  Command_misordered_panics rejectFloats exampleApp "add <a:int=1> <b:int>".toList
    (Handler.func 9 sigNone) 0 1
    { g0 := "<a:int=1>".toList, g1 := "a".toList, g2 := ":int".toList, g3 := "int".toList,
      g4 := "=1".toList, g5 := "1".toList }
    { g0 := "<b:int>".toList, g1 := "b".toList, g2 := ":int".toList, g3 := "int".toList,
      g4 := [], g5 := [] }
    (by decide) (by decide) (by decide) (by decide) rfl

/-- C6, the claim as stated fails: the first token of the usage string
` <name>` (a space, then `<name>`) begins with `<`, yet `Command` does not
panic: it registers a command with the empty name and the argument `name`. -/
theorem Command_leading_space_counterexample :
    hasPrefixLt (specFirstToken " <name>".toList) = true ∧
    (Command rejectFloats NewApp " <name>".toList (Handler.func 0 sigString)).panicked = none ∧
    (Command rejectFloats NewApp " <name>".toList (Handler.func 0 sigString)).app.commands.map
      (fun c => (c.name, c.args.map (fun ar => ar.name))) = [([], ["name".toList])] := by
  decide

/-- C6, amended: `Command` panics, and the registry's command list is what it
was before the call, whenever the usage string itself begins with `<` (its
first token, which is then also the text `Command` takes as the name, begins
with `<`), and whenever some placeholder declares a default literal that the
checker selected by the placeholder's own type tag rejects. -/
theorem Command_leading_lt_or_bad_default_panics (ParseFloat : Str → Option Nat) (a : App)
    (usage : Str) (handler : Handler)
    (h : usage.head? = some '<' ∨
      ∃ m ∈ argRegexpFindAll usage, m.g4 ≠ [] ∧ selectChecker ParseFloat m.g3 m.g5 = none) :
    (∃ p, (Command ParseFloat a usage handler).panicked = some p) ∧
    (Command ParseFloat a usage handler).app.commands = a.commands ∧
    (usage.head? = some '<' →
      hasPrefixLt (specFirstToken usage) = true ∧
      hasPrefixLt ((stringsSplit usage).headD []) = true) := by
  have hfirst : usage.head? = some '<' →
      hasPrefixLt (specFirstToken usage) = true ∧
      hasPrefixLt ((stringsSplit usage).headD []) = true := by
    intro hlt
    refine ⟨?_, (firstToken_hasPrefixLt_iff usage).mpr hlt⟩
    cases usage with
    | nil => simp at hlt
    | cons c cs =>
      simp only [List.head?_cons, Option.some.injEq] at hlt
      subst hlt
      have hw : specIsWhitespace '<' = false := by decide
      simp [specFirstToken, List.dropWhile_cons, List.takeWhile_cons, hw, hasPrefixLt]
  rcases Command_cases ParseFloat a usage handler with
    ⟨hp, happ⟩ | ⟨id, sig, args, _, hargs, hpre, _, _⟩
  · exact ⟨hp, by rw [happ], hfirst⟩
  · exfalso
    rcases h with h | ⟨m, hm, h4, hrej⟩
    · have := (firstToken_hasPrefixLt_iff usage).mpr h
      rw [hpre] at this
      cases this
    · obtain ⟨h1, _, _⟩ := commandArgs_ok ParseFloat _ _ _ hargs
      obtain ⟨i, hi⟩ := List.getElem?_of_mem hm
      obtain ⟨ar, _, har⟩ := forall₂_getElem? h1 i m hi
      have hw := argRegexpFindAll_wellFormed usage.length usage (Nat.le_refl _) m hm
      rcases (newArgFromRegexpMatch_ok har).2.2 with ⟨h5, _⟩ | ⟨_, v, hv, _⟩
      · exact (hw.g4_ne_nil_iff.mp h4) h5
      · rw [hrej] at hv; cases hv

/-- The usage strings `set <n:int=abc>` (a default that is no integer) and
`<name> hello` (no command name). -/
theorem Command_leading_lt_or_bad_default_panics_witness :
    ((∃ p, (Command rejectFloats exampleApp "set <n:int=abc>".toList
        (Handler.func 9 sigNone)).panicked = some p) ∧
      (Command rejectFloats exampleApp "set <n:int=abc>".toList
        (Handler.func 9 sigNone)).app.commands = exampleApp.commands ∧
      ("set <n:int=abc>".toList.head? = some '<' →
        hasPrefixLt (specFirstToken "set <n:int=abc>".toList) = true ∧
        hasPrefixLt ((stringsSplit "set <n:int=abc>".toList).headD []) = true)) ∧
    ((∃ p, (Command rejectFloats exampleApp "<name> hello".toList
        (Handler.func 9 sigNone)).panicked = some p) ∧
      (Command rejectFloats exampleApp "<name> hello".toList
        (Handler.func 9 sigNone)).app.commands = exampleApp.commands ∧
      ("<name> hello".toList.head? = some '<' →
        hasPrefixLt (specFirstToken "<name> hello".toList) = true ∧
        hasPrefixLt ((stringsSplit "<name> hello".toList).headD []) = true)) :=
  ⟨Command_leading_lt_or_bad_default_panics rejectFloats exampleApp "set <n:int=abc>".toList
      (Handler.func 9 sigNone)
      (Or.inr ⟨{ g0 := "<n:int=abc>".toList, g1 := "n".toList, g2 := ":int".toList,
                 g3 := "int".toList, g4 := "=abc".toList, g5 := "abc".toList },
        by decide, by decide, by decide⟩),
   Command_leading_lt_or_bad_default_panics rejectFloats exampleApp "<name> hello".toList
      (Handler.func 9 sigNone) (Or.inl (by decide))⟩

/-- C7: when `Command` accepts a usage string, the command it appends has
exactly one argument descriptor per placeholder `<name[:type][=default]>`
that the left-to-right scan of the whole string finds, in the order of the
scan; each descriptor has the placeholder's name, the checker selected by the
placeholder's type tag and, as its default value, the tag's checker applied to
the default literal when a default is declared and no default value
otherwise. -/
theorem Command_args_follow_placeholders (ParseFloat : Str → Option Nat) (a : App)
    (usage : Str) (handler : Handler)
    (h : (Command ParseFloat a usage handler).panicked = none) :
    ∃ c, (Command ParseFloat a usage handler).app.commands = a.commands ++ [c] ∧
      (∀ m ∈ argRegexpFindAll usage, m.WellFormed) ∧
      c.args.length = (argRegexpFindAll usage).length ∧
      List.Forall₂
        (fun m ar =>
          ar.name = m.g1 ∧ ar.checker = selectChecker ParseFloat m.g3 ∧
          (ar.defaultValue = if m.g4 = [] then none else selectChecker ParseFloat m.g3 m.g5) ∧
          (m.g4 ≠ [] → ∃ v, ar.defaultValue = some v))
        (argRegexpFindAll usage) c.args := by
  obtain ⟨c, happ, _, _, _, _, _, _, hall⟩ := Command_ok h
  have hwf := argRegexpFindAll_wellFormed usage.length usage (Nat.le_refl _)
  refine ⟨c, by rw [happ], hwf, hall.length_eq.symm, ?_⟩
  have hall2 : List.Forall₂
      (fun m ar => m ∈ argRegexpFindAll usage ∧
        newArgFromRegexpMatch ParseFloat m = Except.ok ar)
      (argRegexpFindAll usage) c.args := by
    rw [List.forall₂_iff_get]
    refine ⟨hall.length_eq, ?_⟩
    intro i h1 h2
    exact ⟨List.get_mem _ _ _, (List.forall₂_iff_get.mp hall).2 i h1 h2⟩
  refine hall2.imp ?_
  intro m ar ⟨hm, hnew⟩
  have hw := hwf m hm
  obtain ⟨hname, hchk, hdef⟩ := newArgFromRegexpMatch_ok hnew
  refine ⟨hname, hchk, ?_, ?_⟩
  · rcases hdef with ⟨h5, hd⟩ | ⟨h5, v, hv, hd⟩
    · have h4 : m.g4 = [] := by
        by_contra hcon
        exact (hw.g4_ne_nil_iff.mp hcon) h5
      rw [if_pos h4, hd]
    · have h4 : m.g4 ≠ [] := hw.g4_ne_nil_iff.mpr h5
      rw [if_neg h4, hd, hv]
  · intro h4
    rcases hdef with ⟨h5, _⟩ | ⟨_, v, _, hd⟩
    · exact absurd h5 (hw.g4_ne_nil_iff.mp h4)
    · exact ⟨v, hd⟩

/-- The usage string of the command `count` of the example. -/
theorem Command_args_follow_placeholders_witness :
    ∃ c, (Command rejectFloats NewApp "count <from:int> <to:int> <double:bool=false>".toList
        (Handler.func 3 sigCount)).app.commands = NewApp.commands ++ [c] ∧
      (∀ m ∈ argRegexpFindAll "count <from:int> <to:int> <double:bool=false>".toList,
        m.WellFormed) ∧
      c.args.length =
        (argRegexpFindAll "count <from:int> <to:int> <double:bool=false>".toList).length ∧
      List.Forall₂
        (fun m ar =>
          ar.name = m.g1 ∧ ar.checker = selectChecker rejectFloats m.g3 ∧
          (ar.defaultValue = if m.g4 = [] then none else selectChecker rejectFloats m.g3 m.g5) ∧
          (m.g4 ≠ [] → ∃ v, ar.defaultValue = some v))
        (argRegexpFindAll "count <from:int> <to:int> <double:bool=false>".toList) c.args :=
  Command_args_follow_placeholders rejectFloats NewApp
    "count <from:int> <to:int> <double:bool=false>".toList (Handler.func 3 sigCount) (by decide)

theorem forall₂_countP_eq {α β : Type} {p : α → Bool} {q : β → Bool} {l₁ : List α}
    {l₂ : List β} (h : List.Forall₂ (fun x y => p x = q y) l₁ l₂) :
    l₁.countP p = l₂.countP q := by
  induction h with
  | nil => rfl
  | cons hr _ ih => simp only [List.countP_cons, ih, hr]

/-- C8: for every placeholder of a usage string that `Command` accepts, the
argument built from it is optional exactly when the placeholder declares a
default literal, whatever value the literal converts to (`false` and `0`
included: any default value makes the argument optional), and `minArgCount`
counts exactly the placeholders that declare no default. -/
theorem Command_optional_iff_default (ParseFloat : Str → Option Nat) (a : App)
    (usage : Str) (handler : Handler)
    (h : (Command ParseFloat a usage handler).panicked = none) :
    ∃ c, (Command ParseFloat a usage handler).app.commands = a.commands ++ [c] ∧
      List.Forall₂ (fun m ar => (ar.isOptional = true ↔ m.g4 ≠ []))
        (argRegexpFindAll usage) c.args ∧
      (∀ ar ∈ c.args, ∀ v, ar.defaultValue = some v → ar.isOptional = true) ∧
      c.minArgCount = (argRegexpFindAll usage).countP (fun m => decide (m.g4 = [])) := by
  obtain ⟨c, happ, _, _, _, _, _, _, hall⟩ := Command_ok h
  have hwf := argRegexpFindAll_wellFormed usage.length usage (Nat.le_refl _)
  have hall2 : List.Forall₂
      (fun m ar => m ∈ argRegexpFindAll usage ∧
        newArgFromRegexpMatch ParseFloat m = Except.ok ar)
      (argRegexpFindAll usage) c.args := by
    rw [List.forall₂_iff_get]
    refine ⟨hall.length_eq, ?_⟩
    intro i h1 h2
    exact ⟨List.get_mem _ _ _, (List.forall₂_iff_get.mp hall).2 i h1 h2⟩
  have hopt : List.Forall₂ (fun m ar => (ar.isOptional = true ↔ m.g4 ≠ []))
      (argRegexpFindAll usage) c.args := by
    refine hall2.imp ?_
    intro m ar ⟨hm, hnew⟩
    have hw := hwf m hm
    rw [hw.g4_ne_nil_iff]
    rcases (newArgFromRegexpMatch_ok hnew).2.2 with ⟨h5, hd⟩ | ⟨h5, v, _, hd⟩
    · simp [arg.isOptional, hd, h5]
    · simp [arg.isOptional, hd, h5]
  refine ⟨c, by rw [happ], hopt, ?_, ?_⟩
  · intro ar _ v hv
    simp [arg.isOptional, hv]
  · rw [minArgCount_eq_countP]
    symm
    apply forall₂_countP_eq
    refine hopt.imp ?_
    intro m ar hiff
    by_cases h4 : m.g4 = []
    · have : ar.isOptional = false := by
        cases ho : ar.isOptional with
        | false => rfl
        | true => exact absurd h4 (hiff.mp ho)
      simp [h4, this]
    · simp [h4, hiff.mpr h4]

/-- A usage string whose defaults convert to `false` and to `0`. -/
theorem Command_optional_iff_default_witness :
    ∃ c, (Command rejectFloats NewApp "flags <n:int> <quiet:bool=false> <level:int=0>".toList
        (Handler.func 3 sigFlags)).app.commands = NewApp.commands ++ [c] ∧
      List.Forall₂ (fun m ar => (ar.isOptional = true ↔ m.g4 ≠ []))
        (argRegexpFindAll "flags <n:int> <quiet:bool=false> <level:int=0>".toList) c.args ∧
      (∀ ar ∈ c.args, ∀ v, ar.defaultValue = some v → ar.isOptional = true) ∧
      c.minArgCount = (argRegexpFindAll "flags <n:int> <quiet:bool=false> <level:int=0>".toList).countP
        (fun m => decide (m.g4 = [])) :=
  Command_optional_iff_default rejectFloats NewApp
    "flags <n:int> <quiet:bool=false> <level:int=0>".toList (Handler.func 3 sigFlags) (by decide)

/-- C9: for every placeholder whose type tag is absent, or is anything other
than `bool`, `int` and `float` (the tag `string` and misspelt tags included),
`newArgFromRegexpMatch` builds the argument without a panic and the
argument's checker is `stringChecker`: it accepts every token and returns the
token unchanged. -/
theorem unknown_type_tag_is_string (ParseFloat : Str → Option Nat) (m : Submatch)
    (h : m.g3 ≠ "bool".toList ∧ m.g3 ≠ "int".toList ∧ m.g3 ≠ "float".toList) :
    ∃ ar, newArgFromRegexpMatch ParseFloat m = Except.ok ar ∧ ar.checker = stringChecker ∧
      ∀ tok, ar.checker tok = some (Value.str tok) := by
  have hsel : selectChecker ParseFloat m.g3 = stringChecker := by
    simp only [selectChecker, typeCheckers, if_neg h.1, if_neg h.2.1, if_neg h.2.2]
  unfold newArgFromRegexpMatch
  simp only [hsel]
  by_cases h5 : m.g5 = []
  · refine ⟨{ name := m.g1, checker := stringChecker, defaultValue := none }, ?_, rfl,
      fun _ => rfl⟩
    simp only [h5, ne_eq, not_true_eq_false, if_false]
  · refine ⟨{ name := m.g1, checker := stringChecker, defaultValue := some (Value.str m.g5) },
      ?_, rfl, fun _ => rfl⟩
    simp only [ne_eq, h5, not_false_eq_true, if_true, stringChecker]

/-- The placeholder `<n:integer=7>`, its tag being none of the three known
ones. -/
theorem unknown_type_tag_is_string_witness :
    ∃ ar, newArgFromRegexpMatch rejectFloats
        { g0 := "<n:integer=7>".toList, g1 := "n".toList, g2 := ":integer".toList,
          g3 := "integer".toList, g4 := "=7".toList, g5 := "7".toList } = Except.ok ar ∧
      ar.checker = stringChecker ∧ ∀ tok, ar.checker tok = some (Value.str tok) :=
  unknown_type_tag_is_string rejectFloats
    { g0 := "<n:integer=7>".toList, g1 := "n".toList, g2 := ":integer".toList,
      g3 := "integer".toList, g4 := "=7".toList, g5 := "7".toList }
    (by decide)

/-- Whatever its outcome, `runTarget` makes at most one call, and only of the
handler of its command. -/
theorem runTarget_calls (c : command) (program : Str) (args : List Str) :
    (runTarget c program args).calls.length ≤ 1 ∧
    ∀ call ∈ (runTarget c program args).calls, call.1 = c.handler := by
  unfold runTarget
  split
  · simp
  · split
    · simp
    · simp
    · split
      · split <;> simp
      · simp

/-- C10: when several registered commands have the name given as first trailing
argument, `Run` selects the last of them in registration order and only that
one: the count check, the binding and the handler call are those of the last
match, at most one handler call is made, and it is a call of the last match's
handler. -/
theorem Run_last_registration_wins (a : App) (pre post : List command) (c : command)
    (program name : Str) (toks : List Str)
    (hl : a.commands = pre ++ c :: post) (hc : c.name = name)
    (hpost : ∀ d ∈ post, d.name ≠ name) :
    findTarget a.commands name = some c ∧
    Run a (program :: name :: toks) = runTarget c (filepathBase program) (name :: toks) ∧
    (Run a (program :: name :: toks)).calls.length ≤ 1 ∧
    ∀ call ∈ (Run a (program :: name :: toks)).calls, call.1 = c.handler := by
  have hsel : findTarget a.commands name = some c :=
    (findTarget_eq_some_iff a.commands name c).mpr ⟨pre, post, hl, hc, hpost⟩
  have hrun : Run a (program :: name :: toks) =
      runTarget c (filepathBase program) (name :: toks) := by
    simp only [Run, hsel]
  refine ⟨hsel, hrun, ?_, ?_⟩
  · rw [hrun]
    exact (runTarget_calls c (filepathBase program) (name :: toks)).1
  · rw [hrun]
    exact (runTarget_calls c (filepathBase program) (name :: toks)).2

/-- The example registry with a second `hello` registered last. -/
theorem Run_last_registration_wins_witness :
    findTarget duplicateApp.commands "hello".toList = some helloIntCommand ∧
    Run duplicateApp ["prog".toList, "hello".toList, "5".toList] =
      runTarget helloIntCommand (filepathBase "prog".toList) ["hello".toList, "5".toList] ∧
    (Run duplicateApp ["prog".toList, "hello".toList, "5".toList]).calls.length ≤ 1 ∧
    ∀ call ∈ (Run duplicateApp ["prog".toList, "hello".toList, "5".toList]).calls,
      call.1 = helloIntCommand.handler :=
  Run_last_registration_wins duplicateApp exampleApp.commands [] helloIntCommand
    "prog".toList "hello".toList ["5".toList] rfl rfl (by simp)

/-! ## Dispatch: tokens beyond the declared arguments -/

/-- With a token for every argument of the loop, tokens appended behind them
are not read: the binding loop returns what it returns without them. -/
theorem bindValues_append (args extra : List Str) :
    ∀ (rest : List arg) (i : Nat), i + rest.length + 1 ≤ args.length →
      bindValues (args ++ extra) i rest = bindValues args i rest := by
  intro rest
  induction rest with
  | nil => intro i _; rfl
  | cons x rest ih =>
    intro i hlen
    simp only [List.length_cons] at hlen
    have hget : (args ++ extra)[i + 1]? = args[i + 1]? :=
      List.getElem?_append_left (by omega)
    have htok : bindToken (args ++ extra) i x = bindToken args i x := by
      have hsome : args[i + 1]? = some (args[i + 1]) := List.getElem?_eq_getElem (by omega)
      simp only [bindToken, hget, hsome]
    have hc1 : ((args ++ extra).length : Int) - 2 ≥ (i : Int) := by
      simp only [List.length_append]
      push_cast
      omega
    have hc2 : (args.length : Int) - 2 ≥ (i : Int) := by omega
    have hval : bindValue (args ++ extra) i x = bindValue args i x := by
      unfold bindValue
      cases x.defaultValue with
      | none => exact htok
      | some d => simp only [if_pos hc1, if_pos hc2, htok]
    rw [bindValues, bindValues, hval, ih (i + 1) (by omega)]

/-- C11: for a matched command with `n` declared arguments and `n` tokens (or
more) after the command name, `Run` on these tokens followed by any further
tokens has the outcome of `Run` on these tokens alone, be it the handler call
with its values or the usage error: the further tokens are not read and
cause no error. -/
theorem Run_ignores_extra_tokens (a : App) (c : command) (program name : Str)
    (toks extra : List Str)
    (hsel : findTarget a.commands name = some c)
    (hn : c.args.length ≤ toks.length) :
    Run a (program :: name :: (toks ++ extra)) = Run a (program :: name :: toks) := by
  have hb : bindValues ((name :: toks) ++ extra) 0 c.args = bindValues (name :: toks) 0 c.args :=
    bindValues_append (name :: toks) extra c.args 0 (by simp only [List.length_cons]; omega)
  have hmin : c.minArgCount ≤ c.args.length := by
    rw [minArgCount_eq_countP]
    exact List.countP_le_length _
  have h1 : ¬ (((name :: (toks ++ extra)).length : Int) - 1 < (c.minArgCount : Int)) := by
    simp only [List.length_cons, List.length_append]
    push_cast
    omega
  have h2 : ¬ (((name :: toks).length : Int) - 1 < (c.minArgCount : Int)) := by
    simp only [List.length_cons]
    push_cast
    omega
  have hb2 : bindValues (name :: (toks ++ extra)) 0 c.args = bindValues (name :: toks) 0 c.args := by
    rw [← hb]
    rfl
  simp only [Run, hsel, runTarget, if_neg h1, if_neg h2, hb2]

/-- The command `count` of the example with a fourth and a fifth token behind
its three arguments. -/
theorem Run_ignores_extra_tokens_witness :
    Run exampleApp ("prog".toList :: "count".toList ::
        (["1".toList, "3".toList, "true".toList] ++ ["x".toList, "-y".toList])) =
      Run exampleApp ("prog".toList :: "count".toList ::
        ["1".toList, "3".toList, "true".toList]) :=
  Run_ignores_extra_tokens exampleApp countCommand "prog".toList "count".toList
    ["1".toList, "3".toList, "true".toList] ["x".toList, "-y".toList] rfl (by decide)

/-! ## Registration: the name of a command -/

/-- The first piece of `strings.Split(usage, " ")` is the text before the first
space. -/
theorem stringsSplit_head (usage : Str) :
    (stringsSplit usage).headD [] = usage.takeWhile (fun ch => ch != ' ') := by
  induction usage with
  | nil => rfl
  | cons c cs ih =>
    by_cases hc : c = ' '
    · subst hc
      simp [stringsSplit]
    · have hne : (c != ' ') = true := by simpa using hc
      rw [List.takeWhile_cons, if_pos hne, ← ih]
      simp only [stringsSplit, if_neg hc]
      cases stringsSplit cs <;> rfl

theorem dropWhile_head_false {p : Char → Bool} :
    ∀ (l : Str) (y : Char) (ys : Str), l.dropWhile p = y :: ys → p y = false := by
  intro l
  induction l with
  | nil => intro y ys h; simp at h
  | cons x xs ih =>
    intro y ys h
    rw [List.dropWhile_cons] at h
    split at h
    · exact ih y ys h
    · rename_i hx
      simp only [List.cons.injEq] at h
      rw [← h.1]
      simpa using hx

/-- The text before the first space is the first whitespace-delimited token
when the string does not begin with a space and that text holds no
whitespace. -/
theorem takeWhile_eq_specFirstToken (usage : Str) (h0 : usage.head? ≠ some ' ')
    (hws : ∀ ch ∈ usage.takeWhile (fun ch => ch != ' '), specIsWhitespace ch = false) :
    usage.takeWhile (fun ch => ch != ' ') = specFirstToken usage := by
  cases usage with
  | nil => rfl
  | cons c cs =>
    have hc : c ≠ ' ' := by
      intro hcon
      exact h0 (by simp [hcon])
    have hne : (c != ' ') = true := by simpa using hc
    have hcw : specIsWhitespace c = false := by
      apply hws
      rw [List.takeWhile_cons, if_pos hne]
      simp
    have hsplit := List.takeWhile_append_dropWhile (fun ch => ch != ' ') (c :: cs)
    have hall : ∀ ch ∈ (c :: cs).takeWhile (fun ch => ch != ' '),
        (fun x => !specIsWhitespace x) ch = true := by
      intro ch hch
      simp [hws ch hch]
    unfold specFirstToken
    rw [List.dropWhile_cons, if_neg (by simp [hcw])]
    cases hd : (c :: cs).dropWhile (fun ch => ch != ' ') with
    | nil =>
      rw [hd, List.append_nil] at hsplit
      rw [hsplit]
      exact (List.takeWhile_eq_self_iff.mpr (by rw [hsplit] at hall; exact hall)).symm
    | cons y ys =>
      have hy := dropWhile_head_false (c :: cs) y ys hd
      have hy2 : y = ' ' := by simpa using hy
      rw [hd] at hsplit
      have := takeWhile_append_stop (p := fun x => !specIsWhitespace x)
        ((c :: cs).takeWhile (fun ch => ch != ' ')) y ys hall (by rw [hy2]; decide)
      rw [hsplit] at this
      exact this.1.symm

/-- C12, the claim as stated fails: `Command` accepts the usage string ` ping`
(a space, then `ping`) and registers a command whose name is the empty
string, while the first whitespace-delimited token of the usage string is
`ping`. -/
theorem Command_name_counterexample :
    (Command rejectFloats NewApp " ping".toList (Handler.func 0 sigNone)).panicked = none ∧
    (Command rejectFloats NewApp " ping".toList (Handler.func 0 sigNone)).app.commands.map
      (fun c => c.name) = [[]] ∧
    specFirstToken " ping".toList = "ping".toList ∧
    (Command rejectFloats NewApp " ping".toList (Handler.func 0 sigNone)).app.commands.map
      (fun c => c.name) ≠ [specFirstToken " ping".toList] := by
  decide

/-- C12, amended: for every usage string that `Command` accepts, the name of
the registered command is the text of the usage string before its first
space character (all of it when it has no space), the first piece of
`strings.Split(usage, " ")`; this is the first whitespace-delimited token of
the usage string whenever the string does not begin with a space and that
text holds no whitespace character. -/
theorem Command_name_is_text_before_first_space (ParseFloat : Str → Option Nat) (a : App)
    (usage : Str) (handler : Handler)
    (h : (Command ParseFloat a usage handler).panicked = none) :
    ∃ c, (Command ParseFloat a usage handler).app.commands = a.commands ++ [c] ∧
      c.name = usage.takeWhile (fun ch => ch != ' ') ∧
      (usage.head? ≠ some ' ' → (∀ ch ∈ c.name, specIsWhitespace ch = false) →
        c.name = specFirstToken usage) := by
  obtain ⟨c, happ, hname, _⟩ := Command_ok h
  have hn : c.name = usage.takeWhile (fun ch => ch != ' ') := by
    rw [hname, stringsSplit_head]
  refine ⟨c, by rw [happ], hn, ?_⟩
  intro h0 hws
  rw [hn] at hws ⊢
  exact takeWhile_eq_specFirstToken usage h0 hws

/-- The usage string of the command `count` of the example: its name is
`count`, the text before the first space and the first token. -/
theorem Command_name_is_text_before_first_space_witness :
    ∃ c, (Command rejectFloats NewApp "count <from:int> <to:int> <double:bool=false>".toList
        (Handler.func 3 sigCount)).app.commands = NewApp.commands ++ [c] ∧
      c.name = "count <from:int> <to:int> <double:bool=false>".toList.takeWhile
        (fun ch => ch != ' ') ∧
      ("count <from:int> <to:int> <double:bool=false>".toList.head? ≠ some ' ' →
        (∀ ch ∈ c.name, specIsWhitespace ch = false) →
        c.name = specFirstToken "count <from:int> <to:int> <double:bool=false>".toList) :=
  Command_name_is_text_before_first_space rejectFloats NewApp
    "count <from:int> <to:int> <double:bool=false>".toList (Handler.func 3 sigCount) (by decide)

/-! ## Registration: text that is no placeholder, and repeated names -/

/-- C13, the claim as stated fails: `Command` accepts the usage strings
`set <n:int=-1>`, `set <n=>` and `set <a b>` without a panic and registers
for each a command `set` with no argument; the angle-bracketed segment, which
does not match the placeholder grammar, is skipped silently. -/
theorem Command_malformed_counterexample :
    ((Command rejectFloats NewApp "set <n:int=-1>".toList (Handler.func 0 sigNone)).panicked = none ∧
      (Command rejectFloats NewApp "set <n:int=-1>".toList (Handler.func 0 sigNone)).app.commands.map
        (fun c => (c.name, c.args.length)) = [("set".toList, 0)]) ∧
    ((Command rejectFloats NewApp "set <n=>".toList (Handler.func 0 sigNone)).panicked = none ∧
      (Command rejectFloats NewApp "set <n=>".toList (Handler.func 0 sigNone)).app.commands.map
        (fun c => (c.name, c.args.length)) = [("set".toList, 0)]) ∧
    ((Command rejectFloats NewApp "set <a b>".toList (Handler.func 0 sigNone)).panicked = none ∧
      (Command rejectFloats NewApp "set <a b>".toList (Handler.func 0 sigNone)).app.commands.map
        (fun c => (c.name, c.args.length)) = [("set".toList, 0)]) := by
  decide

/-- C13, amended: text of a usage string that does not match the placeholder
grammar, angle-bracketed or not, is no registration error; the scan skips it
and it yields no argument.  For a function handler and a usage string that
does not begin with `<` and in which the scan finds no placeholder, `Command`
does not panic and appends a command with the usage string's first piece as
its name and with no argument. -/
theorem Command_skips_unmatched_segments (ParseFloat : Str → Option Nat) (a : App)
    (usage : Str) (id : Nat) (sig : Signature)
    (hno : argRegexpFindAll usage = [])
    (hname : usage.head? ≠ some '<') :
    (Command ParseFloat a usage (Handler.func id sig)).panicked = none ∧
    (Command ParseFloat a usage (Handler.func id sig)).app.commands =
      a.commands ++ [{ name := (stringsSplit usage).headD [], usage := usage, args := [],
                       handler := Handler.func id sig }] := by
  have hp : ¬ hasPrefixLt ((stringsSplit usage).headD []) = true := by
    rw [firstToken_hasPrefixLt_iff]
    exact hname
  unfold Command
  simp only [hno, commandArgs]
  rw [if_neg hp]
  exact ⟨rfl, rfl⟩

/-- The usage string `set <n:int=-1>`: the scan finds no placeholder in it. -/
theorem Command_skips_unmatched_segments_witness :
    (Command rejectFloats exampleApp "set <n:int=-1>".toList (Handler.func 5 sigNone)).panicked = none ∧
    (Command rejectFloats exampleApp "set <n:int=-1>".toList (Handler.func 5 sigNone)).app.commands =
      exampleApp.commands ++
        [{ name := (stringsSplit "set <n:int=-1>".toList).headD [],
           usage := "set <n:int=-1>".toList, args := [], handler := Handler.func 5 sigNone }] :=
  Command_skips_unmatched_segments rejectFloats exampleApp "set <n:int=-1>".toList 5 sigNone
    (by decide) (by decide)

theorem forall₂_map_eq {α β γ : Type} {f : α → γ} {g : β → γ} {l₁ : List α} {l₂ : List β}
    (h : List.Forall₂ (fun x y => g y = f x) l₁ l₂) : l₂.map g = l₁.map f := by
  induction h with
  | nil => rfl
  | cons hr _ ih => simp only [List.map_cons, ih, hr]

/-- C17, the claim as stated fails: `Command` accepts the usage string
`swap <a> <a>` and registers a command with two arguments, both named `a`. -/
theorem Command_duplicate_names_counterexample :
    (Command rejectFloats NewApp "swap <a> <a>".toList (Handler.func 0 sigStrings)).panicked = none ∧
    (Command rejectFloats NewApp "swap <a> <a>".toList (Handler.func 0 sigStrings)).app.commands.map
      (fun c => c.args.map (fun ar => ar.name)) = [["a".toList, "a".toList]] ∧
    ¬ (∀ names ∈ (Command rejectFloats NewApp "swap <a> <a>".toList
          (Handler.func 0 sigStrings)).app.commands.map (fun c => c.args.map (fun ar => ar.name)),
        names.Nodup) := by
  decide

/-- C17, amended: for every command registered by `Command`, the names of its
argument descriptors are the names of the placeholders of the usage string,
in the order of the scan, each a non-empty string of word characters; the
names are not checked for uniqueness and may repeat. -/
theorem Command_arg_names (ParseFloat : Str → Option Nat) (a : App)
    (usage : Str) (handler : Handler)
    (h : (Command ParseFloat a usage handler).panicked = none) :
    ∃ c, (Command ParseFloat a usage handler).app.commands = a.commands ++ [c] ∧
      c.args.map (fun ar => ar.name) = (argRegexpFindAll usage).map (fun m => m.g1) ∧
      ∀ ar ∈ c.args, ar.name ≠ [] ∧ ∀ ch ∈ ar.name, isWordChar ch = true := by
  obtain ⟨c, happ, _, _, _, _, _, _, hall⟩ := Command_ok h
  have hwf := argRegexpFindAll_wellFormed usage.length usage (Nat.le_refl _)
  have hnames : c.args.map (fun ar => ar.name) = (argRegexpFindAll usage).map (fun m => m.g1) :=
    forall₂_map_eq (hall.imp (fun m ar hnew => (newArgFromRegexpMatch_ok hnew).1))
  refine ⟨c, by rw [happ], hnames, ?_⟩
  intro ar har
  have hmem : ar.name ∈ (argRegexpFindAll usage).map (fun m => m.g1) := by
    rw [← hnames]
    exact List.mem_map_of_mem _ har
  obtain ⟨m, hm, hmn⟩ := List.mem_map.mp hmem
  rw [← hmn]
  exact (hwf m hm).1

/-- The usage string `swap <a> <a>`, accepted with the name `a` twice. -/
theorem Command_arg_names_witness :
    ∃ c, (Command rejectFloats NewApp "swap <a> <a>".toList (Handler.func 0 sigStrings)).app.commands =
        NewApp.commands ++ [c] ∧
      c.args.map (fun ar => ar.name) =
        (argRegexpFindAll "swap <a> <a>".toList).map (fun m => m.g1) ∧
      ∀ ar ∈ c.args, ar.name ≠ [] ∧ ∀ ch ∈ ar.name, isWordChar ch = true :=
  Command_arg_names rejectFloats NewApp "swap <a> <a>".toList (Handler.func 0 sigStrings) (by decide)

/-! ## The required-before-optional invariant and what rests on it -/

/-- With required arguments first, the arguments without a default are exactly
those at an index below their number. -/
theorem RequiredFirst.lt_countP_imp :
    ∀ (args : List arg), RequiredFirst args → ∀ (k : Nat) (ar : arg), args[k]? = some ar →
      k < args.countP (fun a => !a.isOptional) → ar.isOptional = false := by
  intro args
  induction args with
  | nil => intro _ k ar h; simp at h
  | cons x rest ih =>
    intro hrf k ar hk hlt
    have hrf2 := List.pairwise_cons.mp hrf
    cases hx : x.isOptional with
    | true =>
      have hzero : rest.countP (fun a => !a.isOptional) = 0 := by
        rw [List.countP_eq_zero]
        intro b hb
        simp [hrf2.1 b hb hx]
      simp [List.countP_cons, hx, hzero] at hlt
    | false =>
      cases k with
      | zero =>
        simp only [List.getElem?_cons_zero, Option.some.injEq] at hk
        rw [← hk]
        exact hx
      | succ k =>
        simp only [List.getElem?_cons_succ] at hk
        have hlt2 : k < rest.countP (fun a => !a.isOptional) := by
          simp [List.countP_cons, hx] at hlt
          omega
        exact ih hrf2.2 k ar hk hlt2

/-- C16: in every command of a registry reachable from `NewApp` by calls of
`Command`, once an argument descriptor has a default value every later one
has one too, and the arguments without a default are exactly those at the
indices below `minArgCount`: they form a prefix of the list, of length
`minArgCount`. -/
theorem Reachable_required_prefix (ParseFloat : Str → Option Nat) (a : App) (c : command)
    (hreach : Reachable ParseFloat a) (hc : c ∈ a.commands) :
    (∀ (i j : Nat) (ai aj : arg), i < j → c.args[i]? = some ai → c.args[j]? = some aj →
      ai.isOptional = true → aj.isOptional = true) ∧
    (∀ (i : Nat) (ar : arg), c.args[i]? = some ar →
      (ar.isOptional = false ↔ i < c.minArgCount)) ∧
    c.minArgCount ≤ c.args.length := by
  obtain ⟨hrf, _⟩ := hreach.valid c hc
  refine ⟨?_, ?_, ?_⟩
  · intro i j ai aj hij hi hj
    exact pairwise_getElem? c.args hrf i j ai aj hij hi hj
  · intro i ar hi
    rw [minArgCount_eq_countP]
    exact ⟨RequiredFirst.index_lt_countP c.args hrf i ar hi,
      RequiredFirst.lt_countP_imp c.args hrf i ar hi⟩
  · rw [minArgCount_eq_countP]
    exact List.countP_le_length _

/-- The command `count` of the example registry: two required arguments, then
an optional one. -/
theorem Reachable_required_prefix_witness :
    (∀ (i j : Nat) (ai aj : arg), i < j → countCommand.args[i]? = some ai →
      countCommand.args[j]? = some aj → ai.isOptional = true → aj.isOptional = true) ∧
    (∀ (i : Nat) (ar : arg), countCommand.args[i]? = some ar →
      (ar.isOptional = false ↔ i < countCommand.minArgCount)) ∧
    countCommand.minArgCount ≤ countCommand.args.length :=
  Reachable_required_prefix rejectFloats exampleApp countCommand
    (Reachable.command _ _ _ (Reachable.command _ _ _ (Reachable.command _ _ _
      (Reachable.command _ _ _ Reachable.newApp))))
    (List.getElem?_mem (show exampleApp.commands[3]? = some countCommand from rfl))

/-- The binding loop makes no access out of range when every argument without
a default has a token. -/
theorem bindValues_no_index (args : List Str) :
    ∀ (rest : List arg) (i : Nat),
      (∀ (k : Nat) (ar : arg), rest[k]? = some ar → ar.isOptional = false →
        i + k + 1 < args.length) →
      ∀ (j n : Nat), bindValues args i rest ≠ Except.error (BindStop.index j n) := by
  intro rest
  induction rest with
  | nil => intro i _ j n h; simp [bindValues] at h
  | cons x rest ih =>
    intro i hreq j n
    have hrest := ih (i + 1)
      (fun k ar hk har => by have := hreq (k + 1) ar (by simpa using hk) har; omega) j n
    have htok : i + 1 < args.length → bindToken args i x ≠ Except.error (BindStop.index j n) := by
      intro hlt
      have hsome : args[i + 1]? = some (args[i + 1]) := List.getElem?_eq_getElem hlt
      simp only [bindToken, hsome]
      cases x.checker args[i + 1] <;> simp
    have hval : bindValue args i x ≠ Except.error (BindStop.index j n) := by
      unfold bindValue
      cases hd : x.defaultValue with
      | none =>
        exact htok (by have := hreq 0 x (by simp) (by simp [arg.isOptional, hd]); omega)
      | some d =>
        by_cases hc : (args.length : Int) - 2 ≥ (i : Int)
        · simp only [if_pos hc]
          exact htok (by omega)
        · simp only [if_neg hc]
          simp
    rw [bindValues]
    cases hb : bindValue args i x with
    | error e =>
      simp only
      intro hcon
      rw [hb] at hval
      have he : e = BindStop.index j n := by
        simpa using hcon
      exact hval (by rw [he])
    | ok v =>
      simp only
      cases hr : bindValues args (i + 1) rest with
      | error e =>
        simp only
        intro hcon
        rw [hr] at hrest
        exact hrest hcon
      | ok vs => simp

/-- C18: for a command of a registry built by `NewApp` and calls of `Command`
and an `argv` with at least `minArgCount` tokens after the command name, no
access `args[i+1]` of the binding loop of `Run` is out of range: the loop
never stops on an index out of range, every required argument has a token,
and `Run` does not end in an index-out-of-range panic.  The proof rests on
the required arguments forming a prefix of the argument list. -/
theorem Run_binding_in_bounds (ParseFloat : Str → Option Nat) (a : App) (c : command)
    (program name : Str) (toks : List Str)
    (hreach : Reachable ParseFloat a)
    (hsel : findTarget a.commands name = some c)
    (hcount : c.minArgCount ≤ toks.length) :
    (∀ (j n : Nat), bindValues (name :: toks) 0 c.args ≠ Except.error (BindStop.index j n)) ∧
    (∀ (i : Nat) (ar : arg), c.args[i]? = some ar → ar.isOptional = false →
      i + 1 < (name :: toks).length) ∧
    (∀ (j n : Nat), (Run a (program :: name :: toks)).status ≠
      Status.panicked (Panic.indexOutOfRange j n)) := by
  obtain ⟨hrf, _⟩ := hreach.valid c (findTarget_mem hsel).1
  have hreq : ∀ (k : Nat) (ar : arg), c.args[k]? = some ar → ar.isOptional = false →
      0 + k + 1 < (name :: toks).length := by
    intro k ar hk har
    have h1 := RequiredFirst.index_lt_countP c.args hrf k ar hk har
    rw [← minArgCount_eq_countP] at h1
    simp only [List.length_cons]
    omega
  have hno := bindValues_no_index (name :: toks) c.args 0 hreq
  refine ⟨hno, fun i ar hi har => by have := hreq i ar hi har; omega, ?_⟩
  have hnot : ¬ (((name :: toks).length : Int) - 1 < (c.minArgCount : Int)) := by
    simp only [List.length_cons]
    push_cast
    omega
  intro j n
  simp only [Run, hsel, runTarget, if_neg hnot]
  cases hb : bindValues (name :: toks) 0 c.args with
  | error e =>
    cases e with
    | conversion => simp
    | index j2 n2 => exact absurd hb (hno j2 n2)
  | ok values =>
    simp only
    split
    · split <;> simp
    · simp

/-- The command `count` of the example with exactly its two required tokens. -/
theorem Run_binding_in_bounds_witness :
    (∀ (j n : Nat), bindValues ("count".toList :: ["1".toList, "3".toList]) 0 countCommand.args ≠
      Except.error (BindStop.index j n)) ∧
    (∀ (i : Nat) (ar : arg), countCommand.args[i]? = some ar → ar.isOptional = false →
      i + 1 < ("count".toList :: ["1".toList, "3".toList]).length) ∧
    (∀ (j n : Nat),
      (Run exampleApp ("prog".toList :: "count".toList :: ["1".toList, "3".toList])).status ≠
        Status.panicked (Panic.indexOutOfRange j n)) :=
  Run_binding_in_bounds rejectFloats exampleApp countCommand "prog".toList "count".toList
    ["1".toList, "3".toList]
    (Reachable.command _ _ _ (Reachable.command _ _ _ (Reachable.command _ _ _
      (Reachable.command _ _ _ Reachable.newApp))))
    rfl (by decide)

/-! ## The default literal at registration and at dispatch -/

/-- In a reachable registry the argument descriptors of every command are
those `newArgFromRegexpMatch` builds from the matches of the command's own
usage string. -/
theorem Reachable.args_of_usage {ParseFloat : Str → Option Nat} {a : App}
    (h : Reachable ParseFloat a) :
    ∀ c ∈ a.commands,
      List.Forall₂ (fun m ar => newArgFromRegexpMatch ParseFloat m = Except.ok ar)
        (argRegexpFindAll c.usage) c.args := by
  induction h with
  | newApp => intro c hc; simp [NewApp] at hc
  | command a usage handler _ ih =>
    rcases Command_cases ParseFloat a usage handler with
      ⟨_, happ⟩ | ⟨id, sig, args, _, hargs, _, _, happ⟩
    · rw [happ]; exact ih
    · rw [happ]
      intro c hc
      simp only [List.mem_append, List.mem_singleton] at hc
      rcases hc with hc | hc
      · exact ih c hc
      · subst hc
        exact (commandArgs_ok ParseFloat _ _ _ hargs).1

/-- Appending the token `d` behind `n` tokens changes nothing in the binding
loop when the argument at index `n` and all later ones have a default value
and the checker of the argument at index `n` converts `d` to that argument's
default value. -/
theorem bindValues_default_token (args : List Str) (d : Str) :
    ∀ (rest : List arg) (j : Nat),
      (∀ (k : Nat) (ar : arg), rest[k]? = some ar → args.length ≤ j + k + 1 →
        ∃ v, ar.defaultValue = some v ∧ (j + k + 1 = args.length → ar.checker d = some v)) →
      bindValues (args ++ [d]) j rest = bindValues args j rest := by
  intro rest
  induction rest with
  | nil => intro j _; rfl
  | cons x rest ih =>
    intro j hopt
    have hrest := ih (j + 1) (fun k ar hk hle => by
      obtain ⟨v, hv, hvd⟩ := hopt (k + 1) ar (by simpa using hk) (by omega)
      exact ⟨v, hv, fun he => hvd (by omega)⟩)
    have hval : bindValue (args ++ [d]) j x = bindValue args j x := by
      by_cases hlt : j + 1 < args.length
      · have hget : (args ++ [d])[j + 1]? = args[j + 1]? := List.getElem?_append_left hlt
        have htok : bindToken (args ++ [d]) j x = bindToken args j x := by
          have hsome : args[j + 1]? = some (args[j + 1]) := List.getElem?_eq_getElem hlt
          simp only [bindToken, hget, hsome]
        have hc1 : ((args ++ [d]).length : Int) - 2 ≥ (j : Int) := by
          simp only [List.length_append, List.length_singleton]
          push_cast
          omega
        have hc2 : (args.length : Int) - 2 ≥ (j : Int) := by omega
        unfold bindValue
        cases x.defaultValue with
        | none => exact htok
        | some v => simp only [if_pos hc1, if_pos hc2, htok]
      · obtain ⟨v, hv, hvd⟩ := hopt 0 x (by simp) (by omega)
        have hc2 : ¬ ((args.length : Int) - 2 ≥ (j : Int)) := by omega
        unfold bindValue
        simp only [hv, if_neg hc2]
        by_cases he : j + 1 = args.length
        · have hc1 : ((args ++ [d]).length : Int) - 2 ≥ (j : Int) := by
            simp only [List.length_append, List.length_singleton]
            push_cast
            omega
          have hget : (args ++ [d])[j + 1]? = some d := by
            rw [List.getElem?_append_right (by omega)]
            simp [he]
          simp only [if_pos hc1, bindToken, hget, hvd (by omega)]
        · have hc1 : ¬ (((args ++ [d]).length : Int) - 2 ≥ (j : Int)) := by
            simp only [List.length_append, List.length_singleton]
            push_cast
            omega
          simp only [if_neg hc1]
    rw [bindValues, bindValues, hval, hrest]

/-- C14: in a registry built by `NewApp` and calls of `Command`, for an
optional argument declared with the default literal `d`, the default value
stored at registration is the value the argument's checker yields for the
token `d`; and `Run` with the token `d` supplied at that argument's position
(all earlier positions supplied, none later) has the outcome of `Run` with
that position omitted.  Values are compared as the model holds them, a float
by its binary64 encoding. -/
theorem default_literal_round_trip (ParseFloat : Str → Option Nat) (a : App) (c : command)
    (program name : Str) (toks : List Str) (i : Nat) (m : Submatch)
    (hreach : Reachable ParseFloat a) (hc : c ∈ a.commands)
    (hm : (argRegexpFindAll c.usage)[i]? = some m) (hd : m.g4 ≠ [])
    (hlen : toks.length = i) :
    ∃ ar v, c.args[i]? = some ar ∧ ar.defaultValue = some v ∧ ar.checker m.g5 = some v ∧
      (findTarget a.commands name = some c →
        Run a (program :: name :: (toks ++ [m.g5])) = Run a (program :: name :: toks)) := by
  obtain ⟨hrf, _⟩ := hreach.valid c hc
  obtain ⟨ar, har, hnew⟩ := forall₂_getElem? (hreach.args_of_usage c hc) i m hm
  have hw := argRegexpFindAll_wellFormed c.usage.length c.usage (Nat.le_refl _) m
    (List.getElem?_mem hm)
  have h5 : m.g5 ≠ [] := hw.g4_ne_nil_iff.mp hd
  obtain ⟨_, hchk, hdef⟩ := newArgFromRegexpMatch_ok hnew
  rcases hdef with ⟨h5n, _⟩ | ⟨_, v, hv, hdv⟩
  · exact absurd h5n h5
  · have hcv : ar.checker m.g5 = some v := by rw [hchk]; exact hv
    refine ⟨ar, v, har, hdv, hcv, ?_⟩
    intro hsel
    have haro : ar.isOptional = true := by simp [arg.isOptional, hdv]
    have hmin : c.minArgCount ≤ i := by
      by_contra hcon
      have hlt : i < c.args.countP (fun a => !a.isOptional) := by
        rw [← minArgCount_eq_countP]; omega
      have := RequiredFirst.lt_countP_imp c.args hrf i ar har hlt
      rw [haro] at this
      cases this
    have hopt : ∀ (k : Nat) (ak : arg), c.args[k]? = some ak → (name :: toks).length ≤ 0 + k + 1 →
        ∃ w, ak.defaultValue = some w ∧
          (0 + k + 1 = (name :: toks).length → ak.checker m.g5 = some w) := by
      intro k ak hk hle
      simp only [List.length_cons] at hle
      by_cases hki : k = i
      · subst hki
        rw [har] at hk
        simp only [Option.some.injEq] at hk
        subst hk
        exact ⟨v, hdv, fun _ => hcv⟩
      · have hik : i < k := by omega
        have hko := pairwise_getElem? c.args hrf i k ar ak hik har hk haro
        cases hdk : ak.defaultValue with
        | none => simp [arg.isOptional, hdk] at hko
        | some w =>
          refine ⟨w, rfl, ?_⟩
          intro he
          simp only [List.length_cons] at he
          omega
    have hb := bindValues_default_token (name :: toks) m.g5 c.args 0 hopt
    have hb2 : bindValues (name :: (toks ++ [m.g5])) 0 c.args =
        bindValues (name :: toks) 0 c.args := by
      rw [← hb]
      rfl
    have h1 : ¬ (((name :: (toks ++ [m.g5])).length : Int) - 1 < (c.minArgCount : Int)) := by
      simp only [List.length_cons, List.length_append, List.length_singleton]
      push_cast
      omega
    have h2 : ¬ (((name :: toks).length : Int) - 1 < (c.minArgCount : Int)) := by
      simp only [List.length_cons]
      push_cast
      omega
    simp only [Run, hsel, runTarget, if_neg h1, if_neg h2, hb2]

/-- The command `count` of the example: its third argument is declared with
the default literal `false`; `prog count 1 3 false` has the outcome of
`prog count 1 3`. -/
theorem default_literal_round_trip_witness :
    ∃ ar v, countCommand.args[2]? = some ar ∧ ar.defaultValue = some v ∧
      ar.checker "false".toList = some v ∧
      (findTarget exampleApp.commands "count".toList = some countCommand →
        Run exampleApp ("prog".toList :: "count".toList ::
            (["1".toList, "3".toList] ++ ["false".toList])) =
          Run exampleApp ("prog".toList :: "count".toList :: ["1".toList, "3".toList])) :=
  default_literal_round_trip rejectFloats exampleApp countCommand "prog".toList "count".toList
    ["1".toList, "3".toList] 2
    { g0 := "<double:bool=false>".toList, g1 := "double".toList, g2 := ":bool".toList,
      g3 := "bool".toList, g4 := "=false".toList, g5 := "false".toList }
    (Reachable.command _ _ _ (Reachable.command _ _ _ (Reachable.command _ _ _
      (Reachable.command _ _ _ Reachable.newApp))))
    (List.getElem?_mem (show exampleApp.commands[3]? = some countCommand from rfl))
    (by decide) (by decide) rfl

/-! ## The registry is append-only -/

/-- A sequence of calls only appends to the command list. -/
theorem applyCalls_appends (ParseFloat : Str → Option Nat) :
    ∀ (calls : List Call) (a : App),
      ∃ added, (applyCalls ParseFloat a calls).commands = a.commands ++ added := by
  intro calls
  induction calls with
  | nil => intro a; exact ⟨[], by simp [applyCalls]⟩
  | cons call rest ih =>
    intro a
    obtain ⟨added, hadd⟩ := ih (applyCall ParseFloat a call)
    have hstep : ∃ one, (applyCall ParseFloat a call).commands = a.commands ++ one := by
      cases call with
      | run argv => exact ⟨[], by simp [applyCall]⟩
      | command usage handler =>
        rcases Command_cases ParseFloat a usage handler with
          ⟨_, happ⟩ | ⟨_, _, args, _, _, _, _, happ⟩
        · exact ⟨[], by simp [applyCall, happ]⟩
        · refine ⟨[{ name := (stringsSplit usage).headD [], usage := usage, args := args,
                     handler := handler }], ?_⟩
          simp only [applyCall, happ]
    obtain ⟨one, hone⟩ := hstep
    refine ⟨one ++ added, ?_⟩
    have : applyCalls ParseFloat a (call :: rest) =
        applyCalls ParseFloat (applyCall ParseFloat a call) rest := rfl
    rw [this, hadd, hone, List.append_assoc]

/-- C15: the registry is append-only and ordered by registration.  `NewApp`
starts with an empty command list; a call of `Command` that does not panic
keeps every earlier command at its index and adds exactly one command, at the
end, whose usage text is the usage string; a call that panics leaves the
list as it was; `Run` leaves the list as it was; and after any sequence of
calls of `Command` and `Run` the list is the list before followed by the
commands added since. -/
theorem registry_append_only (ParseFloat : Str → Option Nat) (a : App) (usage : Str)
    (handler : Handler) (argv : List Str) (calls : List Call) :
    NewApp.commands = [] ∧
    ((Command ParseFloat a usage handler).panicked = none →
      ∃ c, (Command ParseFloat a usage handler).app.commands = a.commands ++ [c] ∧
        c.usage = usage ∧
        (Command ParseFloat a usage handler).app.commands.length = a.commands.length + 1 ∧
        ∀ (i : Nat), i < a.commands.length →
          (Command ParseFloat a usage handler).app.commands[i]? = a.commands[i]?) ∧
    ((Command ParseFloat a usage handler).panicked ≠ none →
      (Command ParseFloat a usage handler).app.commands = a.commands) ∧
    (applyCall ParseFloat a (Call.run argv)).commands = a.commands ∧
    (∃ added, (applyCalls ParseFloat a calls).commands = a.commands ++ added) := by
  refine ⟨rfl, ?_, ?_, rfl, applyCalls_appends ParseFloat calls a⟩
  · intro h
    obtain ⟨c, happ, _, husage, _⟩ := Command_ok h
    refine ⟨c, by rw [happ], husage, by rw [happ]; simp, ?_⟩
    intro i hi
    rw [happ]
    exact List.getElem?_append_left hi
  · intro h
    rcases Command_cases ParseFloat a usage handler with
      ⟨_, happ⟩ | ⟨_, _, _, _, _, _, hnone, _⟩
    · rw [happ]
    · exact absurd hnone h

/-- The example registry, the registration of a fifth command, a rejected
registration, and a run in between. -/
theorem registry_append_only_witness :
    NewApp.commands = [] ∧
    ((Command rejectFloats exampleApp "hello <n:int>".toList (Handler.func 7 sigInt)).panicked = none →
      ∃ c, (Command rejectFloats exampleApp "hello <n:int>".toList
            (Handler.func 7 sigInt)).app.commands = exampleApp.commands ++ [c] ∧
        c.usage = "hello <n:int>".toList ∧
        (Command rejectFloats exampleApp "hello <n:int>".toList
            (Handler.func 7 sigInt)).app.commands.length = exampleApp.commands.length + 1 ∧
        ∀ (i : Nat), i < exampleApp.commands.length →
          (Command rejectFloats exampleApp "hello <n:int>".toList
            (Handler.func 7 sigInt)).app.commands[i]? = exampleApp.commands[i]?) ∧
    ((Command rejectFloats exampleApp "hello <n:int>".toList (Handler.func 7 sigInt)).panicked ≠ none →
      (Command rejectFloats exampleApp "hello <n:int>".toList (Handler.func 7 sigInt)).app.commands =
        exampleApp.commands) ∧
    (applyCall rejectFloats exampleApp
        (Call.run ["prog".toList, "ping".toList])).commands = exampleApp.commands ∧
    (∃ added, (applyCalls rejectFloats exampleApp
        [Call.run ["prog".toList, "ping".toList],
         Call.command "<x>".toList (Handler.func 8 sigNone),
         Call.command "bye".toList (Handler.func 9 sigNone)]).commands =
      exampleApp.commands ++ added) :=
  registry_append_only rejectFloats exampleApp "hello <n:int>".toList (Handler.func 7 sigInt)
    ["prog".toList, "ping".toList]
    [Call.run ["prog".toList, "ping".toList],
     Call.command "<x>".toList (Handler.func 8 sigNone),
     Call.command "bye".toList (Handler.func 9 sigNone)]

/-! ## When `Command` succeeds -/

/-- For a well-formed match whose default literal, if declared, is accepted,
`newArgFromRegexpMatch` builds an argument, optional exactly when a default
is declared. -/
theorem newArgFromRegexpMatch_succeeds (ParseFloat : Str → Option Nat) (m : Submatch)
    (hw : m.WellFormed)
    (hacc : m.g4 ≠ [] → (selectChecker ParseFloat m.g3 m.g5).isSome = true) :
    ∃ ar, newArgFromRegexpMatch ParseFloat m = Except.ok ar ∧
      (ar.isOptional = true ↔ m.g4 ≠ []) := by
  unfold newArgFromRegexpMatch
  by_cases h5 : m.g5 = []
  · have h4 : m.g4 = [] := by
      by_contra hcon
      exact (hw.g4_ne_nil_iff.mp hcon) h5
    refine ⟨{ name := m.g1, checker := selectChecker ParseFloat m.g3, defaultValue := none },
      ?_, ?_⟩
    · simp only [h5, ne_eq, not_true_eq_false, if_false]
    · simp [arg.isOptional, h4]
  · have h4 : m.g4 ≠ [] := hw.g4_ne_nil_iff.mpr h5
    obtain ⟨v, hv⟩ := Option.isSome_iff_exists.mp (hacc h4)
    refine ⟨{ name := m.g1, checker := selectChecker ParseFloat m.g3, defaultValue := some v },
      ?_, ?_⟩
    · simp only [ne_eq, h5, not_false_eq_true, if_true, hv]
    · simp [arg.isOptional, h4]

/-- The loop of `Command` does not panic on well-formed matches whose declared
defaults are accepted and among which none without a default follows one
with a default. -/
theorem commandArgs_succeeds (ParseFloat : Str → Option Nat) :
    ∀ (ms : List Submatch) (hasOptional : Bool),
      (∀ m ∈ ms, m.WellFormed) →
      (∀ m ∈ ms, m.g4 ≠ [] → (selectChecker ParseFloat m.g3 m.g5).isSome = true) →
      List.Pairwise (fun mi mj => mi.g4 ≠ [] → mj.g4 ≠ []) ms →
      (hasOptional = true → ∀ m ∈ ms, m.g4 ≠ []) →
      ∃ args, commandArgs ParseFloat ms hasOptional = Except.ok args := by
  intro ms
  induction ms with
  | nil => intro _ _ _ _ _; exact ⟨[], rfl⟩
  | cons m rest ih =>
    intro hasOptional hwf hacc hord hflag
    have hord2 := List.pairwise_cons.mp hord
    obtain ⟨ar, hnew, hopt⟩ := newArgFromRegexpMatch_succeeds ParseFloat m
      (hwf m (by simp)) (hacc m (by simp))
    have hcheck : ¬ ((hasOptional && !ar.isOptional) = true) := by
      intro hcon
      simp only [Bool.and_eq_true, Bool.not_eq_true'] at hcon
      have := hopt.mpr (hflag hcon.1 m (by simp))
      rw [hcon.2] at this
      cases this
    obtain ⟨args, hargs⟩ := ih (if ar.isOptional then true else hasOptional)
      (fun m' hm' => hwf m' (by simp [hm']))
      (fun m' hm' => hacc m' (by simp [hm']))
      hord2.2
      (by
        intro hf m' hm'
        by_cases hao : ar.isOptional = true
        · exact hord2.1 m' hm' (hopt.mp hao)
        · simp only [hao, if_false] at hf
          exact hflag hf m' (by simp [hm']))
    refine ⟨ar :: args, ?_⟩
    rw [commandArgs]
    simp only [hnew, if_neg hcheck, hargs]

/-- C19: `Command` succeeds exactly when none of its failure conditions holds.
It does not panic if and only if the handler is a function, the usage string
does not begin with `<`, every declared default literal is accepted by the
checker of its placeholder, and no placeholder without a default follows one
with a default; when it does not panic it registers a command, and in every
other case it panics and registers none. -/
theorem Command_succeeds_iff (ParseFloat : Str → Option Nat) (a : App) (usage : Str)
    (handler : Handler) :
    ((Command ParseFloat a usage handler).panicked = none ↔
      ((∃ id sig, handler = Handler.func id sig) ∧ usage.head? ≠ some '<' ∧
        (∀ m ∈ argRegexpFindAll usage, m.g4 ≠ [] →
          (selectChecker ParseFloat m.g3 m.g5).isSome = true) ∧
        (∀ (i j : Nat) (mi mj : Submatch), i < j →
          (argRegexpFindAll usage)[i]? = some mi → (argRegexpFindAll usage)[j]? = some mj →
          mi.g4 ≠ [] → mj.g4 ≠ []))) ∧
    ((Command ParseFloat a usage handler).panicked = none →
      ∃ c, (Command ParseFloat a usage handler).app.commands = a.commands ++ [c]) ∧
    ((Command ParseFloat a usage handler).panicked ≠ none →
      (Command ParseFloat a usage handler).app.commands = a.commands) := by
  have hwf := argRegexpFindAll_wellFormed usage.length usage (Nat.le_refl _)
  refine ⟨⟨?_, ?_⟩, ?_, ?_⟩
  · intro h
    obtain ⟨c, _, _, _, _, hpre, hfunc, hrf, hall⟩ := Command_ok h
    refine ⟨hfunc, ?_, ?_, ?_⟩
    · intro hcon
      have := (firstToken_hasPrefixLt_iff usage).mpr hcon
      rw [hpre] at this
      cases this
    · intro m hm h4
      obtain ⟨i, hi⟩ := List.getElem?_of_mem hm
      obtain ⟨ar, _, har⟩ := forall₂_getElem? hall i m hi
      rcases (newArgFromRegexpMatch_ok har).2.2 with ⟨h5, _⟩ | ⟨_, v, hv, _⟩
      · exact absurd h5 ((hwf m hm).g4_ne_nil_iff.mp h4)
      · simp [hv]
    · intro i j mi mj hij hi hj h4
      obtain ⟨ai, hai, hni⟩ := forall₂_getElem? hall i mi hi
      obtain ⟨aj, haj, hnj⟩ := forall₂_getElem? hall j mj hj
      have hoi : ai.isOptional = true := by
        rcases (newArgFromRegexpMatch_ok hni).2.2 with ⟨h5, _⟩ | ⟨_, v, _, hv⟩
        · exact absurd h5 ((hwf mi (List.getElem?_mem hi)).g4_ne_nil_iff.mp h4)
        · simp [arg.isOptional, hv]
      have hoj := pairwise_getElem? c.args hrf i j ai aj hij hai haj hoi
      rcases (newArgFromRegexpMatch_ok hnj).2.2 with ⟨_, hv⟩ | ⟨h5, _⟩
      · simp [arg.isOptional, hv] at hoj
      · exact (hwf mj (List.getElem?_mem hj)).g4_ne_nil_iff.mpr h5
  · rintro ⟨⟨id, sig, hid⟩, hhead, hacc, hord⟩
    have hpw : List.Pairwise (fun mi mj => mi.g4 ≠ [] → mj.g4 ≠ []) (argRegexpFindAll usage) := by
      rw [List.pairwise_iff_getElem]
      intro i j hi hj hij
      exact hord i j _ _ hij (List.getElem?_eq_getElem hi) (List.getElem?_eq_getElem hj)
    obtain ⟨args, hargs⟩ := commandArgs_succeeds ParseFloat (argRegexpFindAll usage) false
      hwf hacc hpw (by intro hf; cases hf)
    have hp : ¬ hasPrefixLt ((stringsSplit usage).headD []) = true := by
      rw [firstToken_hasPrefixLt_iff]
      exact hhead
    subst hid
    unfold Command
    simp only [hargs]
    rw [if_neg hp]
  · intro h
    obtain ⟨c, happ, _⟩ := Command_ok h
    exact ⟨c, by rw [happ]⟩
  · intro h
    rcases Command_cases ParseFloat a usage handler with
      ⟨_, happ⟩ | ⟨_, _, _, _, _, _, hnone, _⟩
    · rw [happ]
    · exact absurd hnone h

/-- The usage string of the command `count` of the example: accepted, its four
conditions hold. -/
theorem Command_succeeds_iff_witness :
    ((Command rejectFloats NewApp "count <from:int> <to:int> <double:bool=false>".toList
        (Handler.func 3 sigCount)).panicked = none ↔
      ((∃ id sig, Handler.func 3 sigCount = Handler.func id sig) ∧
        "count <from:int> <to:int> <double:bool=false>".toList.head? ≠ some '<' ∧
        (∀ m ∈ argRegexpFindAll "count <from:int> <to:int> <double:bool=false>".toList,
          m.g4 ≠ [] → (selectChecker rejectFloats m.g3 m.g5).isSome = true) ∧
        (∀ (i j : Nat) (mi mj : Submatch), i < j →
          (argRegexpFindAll "count <from:int> <to:int> <double:bool=false>".toList)[i]? =
            some mi →
          (argRegexpFindAll "count <from:int> <to:int> <double:bool=false>".toList)[j]? =
            some mj →
          mi.g4 ≠ [] → mj.g4 ≠ []))) ∧
    ((Command rejectFloats NewApp "count <from:int> <to:int> <double:bool=false>".toList
        (Handler.func 3 sigCount)).panicked = none →
      ∃ c, (Command rejectFloats NewApp "count <from:int> <to:int> <double:bool=false>".toList
        (Handler.func 3 sigCount)).app.commands = NewApp.commands ++ [c]) ∧
    ((Command rejectFloats NewApp "count <from:int> <to:int> <double:bool=false>".toList
        (Handler.func 3 sigCount)).panicked ≠ none →
      (Command rejectFloats NewApp "count <from:int> <to:int> <double:bool=false>".toList
        (Handler.func 3 sigCount)).app.commands = NewApp.commands) :=
  Command_succeeds_iff rejectFloats NewApp
    "count <from:int> <to:int> <double:bool=false>".toList (Handler.func 3 sigCount)

/-! ## The scenarios of the specification, evaluated -/

example : (exampleApp.commands.map (fun c => (c.name, c.minArgCount, c.args.length))) =
    [("hello".toList, 1, 1), ("goodbye".toList, 0, 1), ("ping".toList, 0, 0),
     ("count".toList, 2, 3)] := by decide

example : Run exampleApp ["prog".toList, "hello".toList, "Ada".toList] =
    { stderr := [], calls := [(Handler.func 0 sigString, [Value.str "Ada".toList])],
      status := Status.returned } := by decide

example : Run exampleApp ["prog".toList, "goodbye".toList] =
    { stderr := [], calls := [(Handler.func 1 sigString, [Value.str "person".toList])],
      status := Status.returned } := by decide

example : Run exampleApp ["prog".toList, "goodbye".toList, "Ada".toList] =
    { stderr := [], calls := [(Handler.func 1 sigString, [Value.str "Ada".toList])],
      status := Status.returned } := by decide

example : Run exampleApp ["prog".toList, "ping".toList] =
    { stderr := [], calls := [(Handler.func 2 sigNone, [])], status := Status.returned } := by decide

example : Run exampleApp ["prog".toList, "count".toList, "1".toList, "3".toList] =
    { stderr := [], calls := [(Handler.func 3 sigCount, [Value.int 1, Value.int 3, Value.bool false])],
      status := Status.returned } := by decide

example : Run exampleApp ["prog".toList, "count".toList, "1".toList, "3".toList, "true".toList] =
    { stderr := [], calls := [(Handler.func 3 sigCount, [Value.int 1, Value.int 3, Value.bool true])],
      status := Status.returned } := by decide

example : Run exampleApp ["/usr/local/bin/prog".toList] =
    { stderr := ("usage:\n prog hello <name:string>\n prog goodbye <name:string=person>\n" ++
        " prog ping\n prog count <from:int> <to:int> <double:bool=false>\n").toList,
      calls := [], status := Status.exited 1 } := by decide

example : Run exampleApp ["prog".toList, "count".toList, "x".toList, "3".toList] =
    { stderr := "usage: prog count <from:int> <to:int> <double:bool=false>\n".toList,
      calls := [], status := Status.exited 1 } := by decide

example : argRegexpFindAll "set <n:int=-1> <m=> <a b> <ok:float=1.5>".toList =
    [{ g0 := "<ok:float=1.5>".toList, g1 := "ok".toList, g2 := ":float".toList,
       g3 := "float".toList, g4 := "=1.5".toList, g5 := "1.5".toList }] := by decide

example : (Atoi "-9223372036854775808".toList, Atoi "9223372036854775808".toList,
    Atoi "+7".toList, Atoi "".toList, Atoi "-".toList, Atoi "1_0".toList) =
    (some (-9223372036854775808), none, some 7, none, none, none) := by decide

example : (Command rejectFloats NewApp "ping\t<a> <b>".toList (Handler.func 0 sigStrings)).app.commands.map
    (fun c => (c.name, c.args.length)) = [("ping\t<a>".toList, 2)] := by decide

example : specFirstToken "ping\t<a> <b>".toList = "ping".toList := by decide

example : runTarget
    { name := "bad".toList, usage := "bad <a=1> <b>".toList,
      args := [{ name := "a".toList, checker := stringChecker,
                 defaultValue := some (Value.str "1".toList) },
               { name := "b".toList, checker := stringChecker, defaultValue := none }],
      handler := Handler.func 0 sigStrings }
    "prog".toList ["bad".toList, "x".toList] =
    { stderr := [], calls := [], status := Status.panicked (Panic.indexOutOfRange 2 2) } := by
  decide

example : Run exampleApp [] =
    { stderr := [], calls := [], status := Status.panicked (Panic.sliceBoundsOutOfRange 1 0) } := by
  decide

example : [sigCount.fits [Value.int 1, Value.int 3, Value.bool false],
    sigCount.fits [Value.int 1, Value.int 3],
    sigCount.fits [Value.int 1, Value.str "3".toList, Value.bool false],
    sigNone.fits [], sigNone.fits [Value.int 1],
    ({ params := [GoType.emptyInterface], variadic := none } : Signature).fits [Value.float 0],
    ({ params := [GoType.int], variadic := some GoType.string } : Signature).fits
      [Value.int 1, Value.str "a".toList, Value.str "b".toList],
    ({ params := [GoType.int], variadic := some GoType.string } : Signature).fits [Value.int 1],
    ({ params := [GoType.int], variadic := some GoType.string } : Signature).fits [],
    ({ params := [GoType.other "int64".toList], variadic := none } : Signature).fits
      [Value.int 1]] =
    [true, false, false, true, false, true, true, true, false, false] := by decide

end Rcli
